import Mathlib

/-!
# Shallow embedding of the FlowBuilder graph/layout engine

Source: `src/src/components/FlowBuilder.tsx` (a React function component).

Modelling conventions, fixed once for the whole file:

* Blocks, connections and the auxiliary interaction state are plain Lean
  structures; ids are `String` (the source uses string ids such as
  `block-<timestamp>`); coordinates and z-indices are `Int`.

* The source keeps its state in React `useState` cells.  Inside one event
  handler all reads of `blocks` / `connections` see the render snapshot
  captured when the handler started, and every `setBlocks(value)` call with a
  plain value replaces the whole pending state, so of several such direct
  writes issued by one handler only the last one is committed; a functional
  update `setBlocks(prev => ...)` queued after the last direct write is
  applied on top of it, one queued before a direct write is discarded.
  Every handler below is therefore embedded as a pure function from the
  snapshot to the state those rules commit.  Where a write is discarded by a
  later one this is noted at the definition, and the discarded write is kept
  as a separate definition when a claim is about it.

* `setTimeout`-deferred recomputations (`updateCollectionEndPosition`,
  `organizeBlocksInFlow`, `updateFlowSize`) run as separate later events on
  the committed state; they are embedded as their own operations.

* JS `Array.prototype.includes` is exact membership (`List.contains`);
  `String.prototype.includes` is substring search (`strIncludes` below);
  `String.prototype.startsWith` is `strStartsWith`.  `a?.includes(b)`
  on a null `a` is falsy.  `Math.abs` / `Math.max` are `mathAbs` / `max`.

* The nondeterministic pieces of block creation (ids from `Date.now()`, the
  running counters) are passed in as explicit parameters.
-/

namespace FlowBuilder

/-- JS `Math.abs` on our integer coordinates. -/
def mathAbs (n : Int) : Int := if n < 0 then -n else n

/-- JS `String.prototype.includes` (substring containment). -/
def strIncludes (s pat : String) : Bool :=
  s.data.tails.any (fun t => pat.data.isPrefixOf t)

/-- JS `String.prototype.startsWith` (prefix test). -/
def strStartsWith (s pre : String) : Bool :=
  pre.data.isPrefixOf s.data

/-- `[...new Set(l)]`: deduplicate keeping the first occurrence of each id. -/
def dedupKeepFirst (l : List String) : List String :=
  (l.foldl (fun acc x => if acc.contains x then acc else x :: acc) []).reverse

/-- The closed set of block type tags (`type BlockType = ...`). -/
inductive BlockType where
  | action
  | table
  | switchB
  | start
  | endB
  | switchEndB
  | flow
  | collection
  | collectionEnd
deriving DecidableEq

/-- 2D point (`position: { x, y }`). -/
structure Pos where
  x : Int
  y : Int
deriving DecidableEq

/-- `connections: { top: string | null; bottom: string[] }` on a block. -/
structure BlockConns where
  top : Option String
  bottom : List String
deriving DecidableEq

/-- A diagram node (`interface Block`); presentational fields
(`collapsed`, `originalHeight`) that none of the embedded logic reads are
omitted. -/
structure Block where
  id : String
  type : BlockType
  title : String
  position : Pos
  connections : BlockConns
  children : Option (List String) := none
  parentFlow : Option String := none
  zIndex : Int := 0
  width : Option Int := none
  height : Option Int := none
  pairedWithId : Option String := none
  internalBlocks : Option (List String) := none
deriving DecidableEq

/-- Anchor tag of a connection endpoint. -/
inductive AnchorPoint where
  | top
  | bottom
deriving DecidableEq

/-- One endpoint of a connection. -/
structure Endpoint where
  id : String
  point : AnchorPoint
deriving DecidableEq

/-- A directed edge of the edge list (`interface Connection`). -/
structure Conn where
  fromPt : Endpoint
  toPt : Endpoint
deriving DecidableEq

/-- The pending explicit-connection state (`connecting`). -/
structure Connecting where
  blockId : String
  point : AnchorPoint
deriving DecidableEq

def FLOW_PADDING : Int := 40
def FLOW_MIN_HEIGHT : Int := 300
def FLOW_MIN_WIDTH : Int := 400
def BLOCK_HEIGHT : Int := 80
def COLLECTION_BLOCK_HEIGHT : Int := 40
def BLOCK_SPACING : Int := 20
def COLLECTION_DEFAULT_GAP : Int := 2 * BLOCK_HEIGHT

/-- `blocks.find(b => b.id === id)`. -/
def findBlock (blocks : List Block) (id : String) : Option Block :=
  blocks.find? (fun b => b.id = id)

/-- `getAbsolutePosition` (source lines 653-670): one level of Flow-local to
absolute translation. -/
def getAbsolutePosition (blocks : List Block) (b : Block) : Pos :=
  match b.parentFlow with
  | none => b.position
  | some pid =>
    match findBlock blocks pid with
    | none => b.position
    | some parentFlow =>
      ⟨parentFlow.position.x + b.position.x, parentFlow.position.y + b.position.y⟩

/-- Rendered height of a block by type, as used by
`updateCollectionEndPosition` and `getConnectorCoordinates`. -/
def blockHeightOf (t : BlockType) : Int :=
  if t = BlockType.collection ∨ t = BlockType.collectionEnd then
    COLLECTION_BLOCK_HEIGHT
  else BLOCK_HEIGHT

/-!
## `getConnectedBlocksBelow` (source lines 767-817)

The JS function threads one mutable `visited` set through all recursive
calls, so the embedding passes the visited list in and out explicitly.
`fuel` bounds the recursion depth; the wrapper supplies more fuel than the
number of ids that can ever enter `visited`, which makes the bound
unreachable.
-/

/-- One step of the `for (const bottomId of block.connections.bottom)`
loop: skip ids with no backing block, otherwise push the id and then the
recursive results, threading the shared visited set. -/
def gcbbBottomStep (blocks : List Block)
    (rec' : String → List String → List String × List String)
    (acc : List String × List String) (bottomId : String) :
    List String × List String :=
  match findBlock blocks bottomId with
  | none => acc
  | some _ =>
    let r := rec' bottomId acc.2
    (acc.1 ++ bottomId :: r.1, r.2)

/-- One step of the `for (const childId of block.children)` loop: only ids
not already visited are pushed and recursed into. -/
def gcbbChildStep
    (rec' : String → List String → List String × List String)
    (acc : List String × List String) (childId : String) :
    List String × List String :=
  if acc.2.contains childId then acc
  else
    let r := rec' childId acc.2
    (acc.1 ++ childId :: r.1, r.2)

def gcbb (blocks : List Block) : Nat → String → List String →
    List String × List String
  | 0, _, visited => ([], visited)
  | fuel + 1, blockId, visited =>
    if visited.contains blockId then ([], visited)
    else
      let v1 := blockId :: visited
      match findBlock blocks blockId with
      | none => ([], v1)
      | some block =>
        let base : List String :=
          if block.type = BlockType.collection then
            match block.pairedWithId with
            | some pid =>
              pid :: (match block.internalBlocks with
                      | some l => l
                      | none => [])
            | none => []
          else []
        let r1 := block.connections.bottom.foldl
          (gcbbBottomStep blocks (gcbb blocks fuel)) (base, v1)
        let r2 :=
          if block.type = BlockType.flow then
            (block.children.getD []).foldl
              (gcbbChildStep (gcbb blocks fuel)) r1
          else r1
        (dedupKeepFirst r2.1, r2.2)

/-- Fuel that the recursion can never exhaust: every recursive call either
returns at once or adds one more id (a block id or a Flow child id) to
`visited`. -/
def gcbbFuel (blocks : List Block) : Nat :=
  blocks.length + (blocks.map (fun b => (b.children.getD []).length)).sum + 2

/-- `getConnectedBlocksBelow(blockId)` with a fresh visited set. -/
def getConnectedBlocksBelow (blocks : List Block) (blockId : String) :
    List String :=
  (gcbb blocks (gcbbFuel blocks) blockId []).1

/-!
## Collection-end recompute (`updateCollectionEndPosition`, lines 125-198)
-/

/-- The `connectedBlocks` accumulation of `updateCollectionEndPosition`:
for every direct bottom id other than the paired end, push the id and then
its whole below-closure (each closure call starts a fresh visited set). -/
def connectedBlocksOfCollection (blocks : List Block) (c : Block)
    (collectionEndId : String) : List String :=
  c.connections.bottom.foldl
    (fun acc blockId =>
      if blockId = collectionEndId then acc
      else acc ++ blockId :: getConnectedBlocksBelow blocks blockId) []

/-- Loop body of the `maxBottom` scan in `updateCollectionEndPosition`
(lines 154-166): skip missing ids, otherwise keep the larger of the
accumulator and the block's absolute bottom (absolute y plus the type's
height). -/
def endFoldStep (blocks : List Block) (maxBottom : Int) (blockId : String) :
    Int :=
  match findBlock blocks blockId with
  | none => maxBottom
  | some block =>
    let blockBottom := (getAbsolutePosition blocks block).y + blockHeightOf block.type
    if blockBottom > maxBottom then blockBottom else maxBottom

/-- `updateCollectionEndPosition(collectionId)`: reposition the paired
CollectionEnd and refresh `internalBlocks`.  Both source writes are
functional updates (`setBlocks(prev => ...)`), so both commit, in order. -/
def updateCollectionEndPosition (blocks : List Block) (collectionId : String) :
    List Block :=
  match blocks.find? (fun b => b.id = collectionId ∧ b.type = BlockType.collection) with
  | none => blocks
  | some collectionBlock =>
    match collectionBlock.pairedWithId with
    | none => blocks
    | some collectionEndId =>
      match findBlock blocks collectionEndId with
      | none => blocks
      | some _ =>
        let connectedBlocks := connectedBlocksOfCollection blocks collectionBlock collectionEndId
        let newYPosition : Int :=
          if connectedBlocks = [] then
            collectionBlock.position.y + COLLECTION_DEFAULT_GAP
          else
            (connectedBlocks.foldl (endFoldStep blocks)
              (collectionBlock.position.y + COLLECTION_BLOCK_HEIGHT)) + BLOCK_HEIGHT + 10
        (blocks.map (fun b =>
            if b.id = collectionEndId then
              { b with position := ⟨collectionBlock.position.x, newYPosition⟩ }
            else b)).map (fun b =>
          if b.id = collectionId then
            { b with internalBlocks := some connectedBlocks }
          else b)

/-- `addBlockToCollection(blockId, collectionId)` (lines 232-255).  The
guard reads the handler snapshot; the update itself is a functional
`setBlocks(prev => ...)`, applied to whatever value is current when the
queue is drained, hence the two list parameters. -/
def addBlockToCollection (snapshot current : List Block)
    (blockId collectionId : String) : List Block :=
  match snapshot.find? (fun b => b.id = collectionId ∧ b.type = BlockType.collection) with
  | none => current
  | some _ =>
    current.map (fun b =>
      if b.id = collectionId then
        let updatedInternalBlocks := b.internalBlocks.getD []
        if updatedInternalBlocks.contains blockId then
          { b with internalBlocks := some updatedInternalBlocks }
        else
          { b with internalBlocks := some (updatedInternalBlocks ++ [blockId]) }
      else b)

/-- The explicit-connect commit shared verbatim by the completion branch
of `handleDragStart` (lines 692-726) and `handleConnectorClick`
(lines 1801-1836): append the target to the source's bottom list, point
the target's top at the source, and raise the target's z-order above the
source's. -/
def connectUpdate (blocks : List Block) (sourceBlock targetBlock : Block) :
    List Block :=
  let newZIndex := max (sourceBlock.zIndex + 1) targetBlock.zIndex
  blocks.map (fun b =>
    if b.id = sourceBlock.id then
      { b with connections :=
          { b.connections with bottom := b.connections.bottom ++ [targetBlock.id] } }
    else if b.id = targetBlock.id then
      { b with connections := { b.connections with top := some sourceBlock.id },
               zIndex := newZIndex }
    else b)

/-- `connectUpdate` followed, for a Collection source, by
`addBlockToCollection`'s functional update (queued after the direct write
at both call sites, hence applied on top of it). -/
def connectCommitBlocks (blocks : List Block) (sourceBlock targetBlock : Block) :
    List Block :=
  let blocks1 := connectUpdate blocks sourceBlock targetBlock
  if sourceBlock.type = BlockType.collection then
    addBlockToCollection blocks blocks1 targetBlock.id sourceBlock.id
  else blocks1

/-!
## Block creation (`addBlock`, lines 280-426)

Fresh ids (`block-<Date.now()>` etc.), the per-kind counters and the
z-index counter value are passed in explicitly.
-/

/-- `getBlockTitle` (lines 429-448). -/
def getBlockTitle : BlockType → String
  | .action => "Action"
  | .table => "Table"
  | .switchB => "Switch"
  | .start => "Start"
  | .endB => "End"
  | .flow => "Flow"
  | .collection => "Collection"
  | _ => "Block"

/-- `addBlock` for the `Flow` branch (lines 286-307). -/
def addBlockFlow (blocks : List Block) (id : String) (flowCounter : Nat)
    (currentZIndex : Int) : List Block :=
  blocks ++ [{ id := id, type := BlockType.flow,
               title := "Flow" ++ toString flowCounter,
               position := ⟨100, 100⟩, connections := ⟨none, []⟩,
               children := some [],
               width := some FLOW_MIN_WIDTH, height := some FLOW_MIN_HEIGHT,
               zIndex := currentZIndex }]

/-- `addBlock` for the `Collection` branch (lines 310-359): the Collection
and its CollectionEnd are created together with symmetric `pairedWithId`
references and a bracketing edge. -/
def addBlockCollection (blocks : List Block) (conns : List Conn)
    (id collectionEndId : String) (collectionCounter : Nat)
    (currentZIndex : Int) : List Block × List Conn :=
  let collectionEndBlock : Block :=
    { id := collectionEndId, type := BlockType.collectionEnd,
      title := "CollectionEnd" ++ toString collectionCounter,
      position := ⟨100, 100 + COLLECTION_DEFAULT_GAP⟩,
      connections := ⟨some id, []⟩,
      pairedWithId := some id, zIndex := currentZIndex + 1 }
  let newBlock : Block :=
    { id := id, type := BlockType.collection,
      title := "Collection" ++ toString collectionCounter,
      position := ⟨100, 100⟩,
      connections := ⟨none, [collectionEndId]⟩,
      pairedWithId := some collectionEndId, internalBlocks := some [],
      zIndex := currentZIndex }
  (blocks ++ [newBlock, collectionEndBlock],
   conns ++ [⟨⟨id, AnchorPoint.bottom⟩, ⟨collectionEndId, AnchorPoint.top⟩⟩])

/-- `addBlock` for the `Switch` branch (lines 363-408).  Note the end
marker is created with type `End` (not `SwitchEnd`) and only its title
records the pairing. -/
def addBlockSwitch (blocks : List Block) (conns : List Conn)
    (id switchEndId : String) (switchCounter : Nat)
    (currentZIndex : Int) : List Block × List Conn :=
  let switchEndBlock : Block :=
    { id := switchEndId, type := BlockType.endB,
      title := "SwitchEnd" ++ toString switchCounter,
      position := ⟨100, 200⟩,
      connections := ⟨some id, []⟩, zIndex := currentZIndex + 1 }
  let newBlock : Block :=
    { id := id, type := BlockType.switchB,
      title := "Switch" ++ toString switchCounter,
      position := ⟨100, 100⟩,
      connections := ⟨none, [switchEndId]⟩, zIndex := currentZIndex }
  (blocks ++ [newBlock, switchEndBlock],
   conns ++ [⟨⟨id, AnchorPoint.bottom⟩, ⟨switchEndId, AnchorPoint.top⟩⟩])

/-- `addBlock` for the remaining single-block types (lines 410-425). -/
def addBlockPlain (blocks : List Block) (t : BlockType) (id : String)
    (currentZIndex : Int) : List Block :=
  blocks ++ [{ id := id, type := t, title := getBlockTitle t,
               position := ⟨100, 100⟩, connections := ⟨none, []⟩,
               zIndex := currentZIndex }]

/-!
## Flow size and reflow (`calculateFlowSize` / `updateFlowSize` /
`organizeBlocksInFlow`, lines 451-482 and 845-889)
-/

/-- `calculateFlowSize(flowId)` (lines 451-470). -/
def calculateFlowSize (blocks : List Block) (flowId : String) : Int × Int :=
  let childBlocks := blocks.filter (fun b => b.parentFlow = some flowId)
  if childBlocks.length = 0 then (FLOW_MIN_WIDTH, FLOW_MIN_HEIGHT)
  else
    let totalBlocksHeight := (childBlocks.length : Int) * BLOCK_HEIGHT
    let totalSpacingHeight := ((childBlocks.length : Int) - 1) * BLOCK_SPACING
    (FLOW_MIN_WIDTH,
     max FLOW_MIN_HEIGHT (totalBlocksHeight + totalSpacingHeight + FLOW_PADDING * 2))

/-- `updateFlowSize(flowId)` (lines 473-482): one direct write setting the
Flow's derived size. -/
def updateFlowSize (blocks : List Block) (flowId : String) : List Block :=
  let wh := calculateFlowSize blocks flowId
  blocks.map (fun b =>
    if b.id = flowId then { b with width := some wh.1, height := some wh.2 }
    else b)

/-- The child re-stacking write issued by `organizeBlocksInFlow`
(lines 854-885): sort children by local y (JS `sort` is stable), then lay
them out on the fixed lane.  In the source this direct write is issued and
then immediately replaced by `updateFlowSize`'s direct write, which is
computed from the same snapshot, so it never reaches the committed state;
it is kept here because it is the re-stacking the spec describes. -/
def organizeBlocksInFlowPositions (blocks : List Block) (flowId : String) :
    List Block :=
  match findBlock blocks flowId with
  | none => blocks
  | some flowBlock =>
    if flowBlock.type ≠ BlockType.flow then blocks
    else
      let childBlocks := blocks.filter (fun b => b.parentFlow = some flowId)
      if childBlocks.length = 0 then blocks
      else
        let sorted := childBlocks.mergeSort (fun a b => a.position.y ≤ b.position.y)
        blocks.map (fun b =>
          if b.parentFlow = some flowId then
            let index : Int := (sorted.indexOf b : Nat)
            let z := if b.zIndex ≥ 100 then b.zIndex else 100 + index
            { b with
              position := ⟨FLOW_PADDING,
                           FLOW_PADDING + index * (BLOCK_HEIGHT + BLOCK_SPACING)⟩,
              zIndex := z }
          else if b.id = flowId then { b with zIndex := 1 }
          else b)

/-- `organizeBlocksInFlow(flowId)` as committed (lines 845-889): the
function issues the re-stacking write and then calls
`updateFlowSize(flowId)`, whose direct write — computed from the same
snapshot — is the last one and therefore the one that commits. -/
def organizeBlocksInFlow (blocks : List Block) (flowId : String) : List Block :=
  match findBlock blocks flowId with
  | none => blocks
  | some flowBlock =>
    if flowBlock.type ≠ BlockType.flow then blocks
    else if (blocks.filter (fun b => b.parentFlow = some flowId)).length = 0 then blocks
    else updateFlowSize blocks flowId

/-!
## Deletion (`removeBlock`, lines 485-650)
-/

/-- The detach write for a deleted Flow's children (lines 526-541): clear
`parentFlow` and translate the stored position to absolute coordinates.
In the source this direct write is issued and then replaced by the final
writes of the generic branch (lines 633-648), both computed from the same
snapshot, so it never reaches the committed state; it is kept here because
it is the detachment the spec describes. -/
def flowDetachWrite (blocks : List Block) (flowBlock : Block) : List Block :=
  blocks.map (fun b =>
    if b.parentFlow = some flowBlock.id then
      { b with parentFlow := none,
               position := ⟨flowBlock.position.x + b.position.x,
                            flowBlock.position.y + b.position.y⟩ }
    else b)

/-- The neighbor-reference clearing of the generic deletion branch
(lines 633-640).  Note the two quirks of the source, kept faithfully:
the `top` test is JS `String.includes` (substring), and a matching
`bottom` array is reset to the empty list, not filtered. -/
def clearNeighborRefs (id : String) (b : Block) : Block :=
  if (match b.connections.top with
      | some t => strIncludes t id
      | none => false) then
    { b with connections := { b.connections with top := none } }
  else if b.connections.bottom.contains id then
    { b with connections := { b.connections with bottom := [] } }
  else b

/-- `connections.filter(conn => !ids.has(conn.from.id) && !ids.has(conn.to.id))`. -/
def removeConnsTouching (ids : List String) (conns : List Conn) : List Conn :=
  conns.filter (fun c => ¬ids.contains c.fromPt.id ∧ ¬ids.contains c.toPt.id)

/-- `removeBlock(id)` as committed (lines 485-650).  The preparatory
writes of lines 489-521 (parent-Flow `children` update, parent-Collection
membership update) and the Flow-children detach of lines 523-542
(`flowDetachWrite`) are all replaced by the later direct writes of
whichever branch finishes the handler, so only that branch's writes
commit. -/
def removeBlock (blocks : List Block) (conns : List Conn) (id : String) :
    List Block × List Conn :=
  match findBlock blocks id with
  | none => (blocks, conns)
  | some blockToRemove =>
    match blockToRemove.type, blockToRemove.pairedWithId with
    | BlockType.collection, some collectionEndId =>
      let idsToRemove := [id, collectionEndId]
      (blocks.filter (fun b => ¬idsToRemove.contains b.id),
       removeConnsTouching idsToRemove conns)
    | BlockType.collectionEnd, some collectionId =>
      let idsToRemove := [id, collectionId]
      (blocks.filter (fun b => ¬idsToRemove.contains b.id),
       removeConnsTouching idsToRemove conns)
    | _, _ =>
      if blockToRemove.type = BlockType.switchB then
        let connectedEnds := blocks.filter
          (fun b => strStartsWith b.title "SwitchEnd"
                    ∧ blockToRemove.connections.bottom.contains b.id)
        let idsToRemove := id :: connectedEnds.map (fun b => b.id)
        (blocks.filter (fun b => ¬idsToRemove.contains b.id),
         removeConnsTouching idsToRemove conns)
      else if strStartsWith blockToRemove.title "SwitchEnd" then
        match blocks.find? (fun b => strStartsWith b.title "Switch"
                                     ∧ b.connections.bottom.contains id) with
        | some parentSwitch =>
          let idsToRemove := [id, parentSwitch.id]
          (blocks.filter (fun b => ¬idsToRemove.contains b.id),
           removeConnsTouching idsToRemove conns)
        | none =>
          (blocks.filter (fun b => ¬(b.id = id)),
           conns.filter (fun c => ¬(c.fromPt.id = id) ∧ ¬(c.toPt.id = id)))
      else
        let mutated := blocks.map (clearNeighborRefs id)
        (mutated.filter (fun b => ¬(b.id = id)),
         conns.filter (fun c => ¬(c.fromPt.id = id) ∧ ¬(c.toPt.id = id)))

/-!
## Explicit connect (`handleConnectorClick`, lines 1775-1859, and the
completion branch of `handleDragStart`, lines 684-741)
-/

/-- `handleConnectorClick(blockId, point)`.  The returned triple is
(blocks, edge list, pending-connect state) as committed; the connect
update is one direct write followed, for a Collection source, by
`addBlockToCollection`'s functional update, which applies on top of it. -/
def handleConnectorClick (blocks : List Block) (conns : List Conn)
    (connecting : Option Connecting) (blockId : String) (point : AnchorPoint) :
    List Block × List Conn × Option Connecting :=
  match findBlock blocks blockId with
  | none => (blocks, conns, connecting)
  | some block =>
    if ¬(block.type = BlockType.switchB ∨ block.type = BlockType.collection
         ∨ block.type = BlockType.flow) then
      (blocks, conns, connecting)
    else
      match connecting with
      | some cn =>
        if cn.blockId = blockId then (blocks, conns, none)
        else
          -- `targetBlock` re-finds the clicked block, `sourceBlock` the armed one
          match findBlock blocks cn.blockId with
          | none => (blocks, conns, connecting)
          | some sourceBlock =>
            if cn.point = AnchorPoint.bottom then
              if block.connections.top = none then
                (connectCommitBlocks blocks sourceBlock block,
                 conns ++
                   [⟨⟨sourceBlock.id, AnchorPoint.bottom⟩, ⟨block.id, AnchorPoint.top⟩⟩],
                 none)
              else (blocks, conns, none)
            else (blocks, conns, connecting)
      | none =>
        if point = AnchorPoint.bottom then (blocks, conns, some ⟨blockId, point⟩)
        else (blocks, conns, connecting)

/-- The pending-connection completion branch of `handleDragStart`
(lines 684-741).  `some` means the press completed (or silently dropped)
the pending connection and the handler returned with `connecting`
cleared; `none` means the branch was not taken and a normal drag starts
with the pending state retained. -/
def handleDragStartConnect (blocks : List Block) (conns : List Conn)
    (connecting : Option Connecting) (id : String) :
    Option (List Block × List Conn) :=
  match findBlock blocks id with
  | none => none
  | some block =>
    match connecting with
    | none => none
    | some cn =>
      if cn.blockId = id ∨ ¬(cn.point = AnchorPoint.bottom) then none
      else
        match findBlock blocks cn.blockId with
        | none => none
        | some sourceBlock =>
          if (sourceBlock.type = BlockType.switchB ∨ sourceBlock.type = BlockType.collection)
              ∧ ¬(block.type = BlockType.start) then
            if block.connections.top = none then
              some (connectCommitBlocks blocks sourceBlock block,
                conns ++
                  [⟨⟨sourceBlock.id, AnchorPoint.bottom⟩, ⟨block.id, AnchorPoint.top⟩⟩])
            else some (blocks, conns)
          else none

/-- `handleRemoveConnection(connectionIndex)` (lines 1862-1913): both the
Collection and the generic branch commit the same block and edge-list
updates (the Collection branch only defers an extra recompute). -/
def handleRemoveConnection (blocks : List Block) (conns : List Conn)
    (connectionIndex : Nat) : List Block × List Conn :=
  match conns.get? connectionIndex with
  | none => (blocks, conns)
  | some connection =>
    match findBlock blocks connection.fromPt.id, findBlock blocks connection.toPt.id with
    | some fromBlock, some toBlock =>
      let updatedBlocks := blocks.map (fun b =>
        if b.id = fromBlock.id then
          { b with connections :=
              { b.connections with
                bottom := b.connections.bottom.filter (fun i => ¬(i = toBlock.id)) } }
        else if b.id = toBlock.id then
          { b with connections := { b.connections with top := none } }
        else b)
      (updatedBlocks, conns.eraseIdx connectionIndex)
    | _, _ => (blocks, conns)

/-!
## Anchor coordinates (`getConnectorCoordinates`, lines 1929-1955)
-/

/-- Absolute coordinates of a block's `top` / `bottom` anchor. -/
def getConnectorCoordinates (blocks : List Block) (b : Block)
    (point : AnchorPoint) : Pos :=
  let absolutePosition := getAbsolutePosition blocks b
  let blockHeight := blockHeightOf b.type
  if b.type = BlockType.flow then
    ⟨absolutePosition.x + (b.width.getD FLOW_MIN_WIDTH) / 2,
     if point = AnchorPoint.top then absolutePosition.y
     else absolutePosition.y + (b.height.getD FLOW_MIN_HEIGHT)⟩
  else
    ⟨absolutePosition.x + 100,
     if point = AnchorPoint.top then absolutePosition.y
     else absolutePosition.y + blockHeight⟩

/-!
## Drag auto-disconnect (`handleDrag`, lines 927-1009)

Only the connection-related effect of `handleDrag` is embedded: the
position updates of lines 1058-1198 touch no `connections` field and no
edge, and are folded into the final committed write together with the
updates below, so for every claim about edges this segment is the whole
story.  `newX`/`newY` is the prospective absolute position of the dragged
block under the pointer.
-/

/-- The auto-disconnect segment: decide whether the dragged block's top
edge is torn, and if so remove it from both the block-local fields and the
edge list. -/
def dragDisconnectStep (blocks : List Block) (conns : List Conn)
    (currentBlock : Block) (newX newY : Int) : List Block × List Conn :=
  match currentBlock.connections.top with
  | none => (blocks, conns)
  | some parentBlockId =>
    match findBlock blocks parentBlockId with
    | none => (blocks, conns)
    | some parentBlock =>
      let isCollectionEndPair :=
        parentBlock.type = BlockType.collection
        ∧ currentBlock.type = BlockType.collectionEnd
      let isSwitchEndPair :=
        strStartsWith parentBlock.title "Switch"
        ∧ strStartsWith currentBlock.title "SwitchEnd"
      let isConnectedToSwitch := parentBlock.type = BlockType.switchB
      let isConnectedToCollection := parentBlock.type = BlockType.collection
      if ¬isSwitchEndPair ∧ ¬isCollectionEndPair
          ∧ ¬isConnectedToSwitch ∧ ¬isConnectedToCollection then
        let parentPos := getAbsolutePosition blocks parentBlock
        let verticalDistance := mathAbs ((parentPos.y + 80) - newY)
        let horizontalDistance := mathAbs ((parentPos.x + 100) - (newX + 100))
        if verticalDistance > 15 ∨ horizontalDistance > 30 then
          let ub1 := blocks.map (fun b =>
            if b.id = parentBlockId then
              { b with connections :=
                  { b.connections with
                    bottom := b.connections.bottom.filter (fun i => ¬(i = currentBlock.id)) } }
            else b)
          let ub2 := ub1.map (fun b =>
            if b.id = currentBlock.id then
              { b with connections := { b.connections with top := none } }
            else b)
          (ub2,
           conns.filter (fun c =>
             ¬(c.fromPt.id = parentBlockId ∧ c.toPt.id = currentBlock.id)
             ∧ ¬(c.fromPt.id = currentBlock.id ∧ c.toPt.id = parentBlockId)))
        else (blocks, conns)
      else (blocks, conns)

/-!
## Release auto-connect (`handleDragEnd`, lines 1455-1772)

`dragEndAutoConnect` embeds the handler from line 1455 on.  It is the
committed effect of `handleDragEnd` whenever the two earlier early-return
branches are skipped, i.e. when the released block's `top` is `null`
(lines 1247-1357 not taken) and no Flow is hovered (lines 1361-1453 not
taken); the deferred `setTimeout` recomputations are separate later
events.
-/

/-- Candidate test of the top-anchor search (lines 1467-1487): not the
block itself, not a plain `End`, an empty `bottom` unless the target is a
Switch or Collection, and both anchor offsets inside the snap tolerances. -/
def topTargetPred (blocks : List Block) (currentBlock : Block)
    (currentTopY currentCenterX : Int) (targetBlock : Block) : Bool :=
  ¬(targetBlock.id = currentBlock.id)
  ∧ ¬(targetBlock.type = BlockType.endB ∧ ¬strStartsWith targetBlock.title "SwitchEnd")
  ∧ ¬(¬(targetBlock.type = BlockType.switchB) ∧ ¬(targetBlock.type = BlockType.collection)
      ∧ targetBlock.connections.bottom.length > 0)
  ∧ (mathAbs (currentTopY - ((getAbsolutePosition blocks targetBlock).y + 80)) < 30
     ∧ mathAbs (currentCenterX - ((getAbsolutePosition blocks targetBlock).x + 100)) < 40)

/-- Candidate test of the bottom-anchor search (lines 1602-1624). -/
def bottomTargetPred (blocks : List Block) (currentBlock : Block)
    (currentBottomY currentCenterX : Int) (targetBlock : Block) : Bool :=
  ¬(targetBlock.id = currentBlock.id)
  ∧ ¬(targetBlock.type = BlockType.start)
  ∧ targetBlock.connections.top = none
  ∧ ¬(¬(currentBlock.type = BlockType.switchB) ∧ ¬(currentBlock.type = BlockType.collection)
      ∧ currentBlock.connections.bottom.length > 0)
  ∧ (mathAbs (currentBottomY - (getAbsolutePosition blocks targetBlock).y) < 30
     ∧ mathAbs (currentCenterX - ((getAbsolutePosition blocks targetBlock).x + 100)) < 40)

/-- The per-block update of the top-anchor acceptance (lines 1519-1572):
snap the released block, shift its below-closure, append the edge on the
target's bottom list. -/
def applyTopConnectBlockUpdate (blocks : List Block)
    (currentBlock targetBlock : Block) (newPos : Pos) (newZIndex : Int)
    (connectedBlocks : List String) (deltaX deltaY : Int) (b : Block) :
    Block :=
  if b.id = currentBlock.id then
    { b with position := newPos,
             connections := { b.connections with top := some targetBlock.id },
             zIndex := newZIndex }
  else if connectedBlocks.contains b.id then
    match b.parentFlow with
    | some pf =>
      if pf = currentBlock.id then b
      else
        match findBlock blocks pf with
        | some _ =>
          { b with position := ⟨max FLOW_PADDING (b.position.x + deltaX),
                                max FLOW_PADDING (b.position.y + deltaY)⟩,
                   zIndex := newZIndex + 1 + (connectedBlocks.indexOf b.id : Nat) }
        | none =>
          { b with position := ⟨b.position.x + deltaX, b.position.y + deltaY⟩,
                   zIndex := newZIndex + 1 + (connectedBlocks.indexOf b.id : Nat) }
    | none =>
      { b with position := ⟨b.position.x + deltaX, b.position.y + deltaY⟩,
               zIndex := newZIndex + 1 + (connectedBlocks.indexOf b.id : Nat) }
  else if b.id = targetBlock.id then
    { b with connections :=
        { b.connections with bottom := b.connections.bottom ++ [currentBlock.id] } }
  else b

/-- Acceptance of a top-anchor target (lines 1488-1592): snap the released
block under the target, shift its below-closure, wire the edge on both
representations and raise the block's z-order above the target's. -/
def applyTopConnect (blocks : List Block) (conns : List Conn)
    (currentBlock targetBlock : Block) : List Block × List Conn :=
  let targetPosition := getAbsolutePosition blocks targetBlock
  let newPos : Pos :=
    match currentBlock.parentFlow with
    | some pf =>
      match findBlock blocks pf with
      | some parentFlow =>
        ⟨FLOW_PADDING, max FLOW_PADDING (targetPosition.y + 83 - parentFlow.position.y)⟩
      | none => ⟨targetPosition.x, targetPosition.y + 83⟩
    | none => ⟨targetPosition.x, targetPosition.y + 83⟩
  let newZIndex := max (targetBlock.zIndex + 1) currentBlock.zIndex
  let connectedBlocks := getConnectedBlocksBelow blocks currentBlock.id
  let deltaY := newPos.y - currentBlock.position.y
  let deltaX := newPos.x - currentBlock.position.x
  (blocks.map (applyTopConnectBlockUpdate blocks currentBlock targetBlock
      newPos newZIndex connectedBlocks deltaX deltaY),
   conns ++ [⟨⟨targetBlock.id, AnchorPoint.bottom⟩, ⟨currentBlock.id, AnchorPoint.top⟩⟩])

/-- Acceptance of a bottom-anchor target (lines 1626-1710): the target is
pulled under the released block; otherwise symmetric to `applyTopConnect`. -/
def applyBottomConnect (blocks : List Block) (conns : List Conn)
    (currentBlock targetBlock : Block) : List Block × List Conn :=
  let currentPos := getAbsolutePosition blocks currentBlock
  let newPos : Pos :=
    match targetBlock.parentFlow with
    | some pf =>
      match findBlock blocks pf with
      | some parentFlow =>
        ⟨FLOW_PADDING, max FLOW_PADDING (currentPos.y + 83 - parentFlow.position.y)⟩
      | none => ⟨currentPos.x, currentPos.y + 83⟩
    | none => ⟨currentPos.x, currentPos.y + 83⟩
  let newZIndex := max (currentBlock.zIndex + 1) targetBlock.zIndex
  let connectedBlocks := getConnectedBlocksBelow blocks targetBlock.id
  let deltaY := newPos.y - targetBlock.position.y
  let deltaX := newPos.x - targetBlock.position.x
  (blocks.map (fun b =>
      if b.id = targetBlock.id then
        { b with position := newPos,
                 connections := { b.connections with top := some currentBlock.id },
                 zIndex := newZIndex }
      else if connectedBlocks.contains b.id then
        match b.parentFlow with
        | some pf =>
          if pf = targetBlock.id then b
          else
            match findBlock blocks pf with
            | some _ =>
              { b with position := ⟨max FLOW_PADDING (b.position.x + deltaX),
                                    max FLOW_PADDING (b.position.y + deltaY)⟩,
                       zIndex := newZIndex + 1 + (connectedBlocks.indexOf b.id : Nat) }
            | none =>
              { b with position := ⟨b.position.x + deltaX, b.position.y + deltaY⟩,
                       zIndex := newZIndex + 1 + (connectedBlocks.indexOf b.id : Nat) }
        | none =>
          { b with position := ⟨b.position.x + deltaX, b.position.y + deltaY⟩,
                   zIndex := newZIndex + 1 + (connectedBlocks.indexOf b.id : Nat) }
      else if b.id = currentBlock.id then
        { b with connections :=
            { b.connections with bottom := b.connections.bottom ++ [targetBlock.id] } }
      else b),
   conns ++ [⟨⟨currentBlock.id, AnchorPoint.bottom⟩, ⟨targetBlock.id, AnchorPoint.top⟩⟩])

/-- The z-order restore of lines 1731-1741, applied when no connection was
created: a block still carrying the transient drag z-index 1000 is demoted
to the next counter value. -/
def restoreDragZIndex (blocks : List Block) (currentBlockId : String)
    (nextZ : Int) : List Block :=
  blocks.map (fun b =>
    if b.id = currentBlockId ∧ b.zIndex = 1000 then { b with zIndex := nextZ }
    else b)

/-- The auto-connect portion of `handleDragEnd` (lines 1455-1772): gate
conditions of line 1456, top-anchor search first, bottom-anchor search
only if the first found nothing, z-order restore when neither connected.
`currentBlock.type.startsWith('CollectionEnd')` holds exactly for the
`CollectionEnd` tag, the only member of the type union with that prefix. -/
def dragEndAutoConnect (blocks : List Block) (conns : List Conn)
    (connecting : Option Connecting) (currentBlock : Block) (nextZ : Int) :
    List Block × List Conn :=
  if connecting = none ∧ ¬strStartsWith currentBlock.title "SwitchEnd"
      ∧ ¬(currentBlock.type = BlockType.collectionEnd) then
    let absolutePosition := getAbsolutePosition blocks currentBlock
    let currentCenterX := absolutePosition.x + 100
    let topResult : Option Block :=
      if ¬(currentBlock.type = BlockType.start) ∧ currentBlock.connections.top = none then
        blocks.find? (topTargetPred blocks currentBlock absolutePosition.y currentCenterX)
      else none
    match topResult with
    | some targetBlock => applyTopConnect blocks conns currentBlock targetBlock
    | none =>
      let botResult : Option Block :=
        if ¬(currentBlock.type = BlockType.endB) then
          blocks.find? (bottomTargetPred blocks currentBlock
            (absolutePosition.y + 80) currentCenterX)
        else none
      match botResult with
      | some targetBlock => applyBottomConnect blocks conns currentBlock targetBlock
      | none => (restoreDragZIndex blocks currentBlock.id nextZ, conns)
  else
    (restoreDragZIndex blocks currentBlock.id nextZ, conns)

/-!
## Reachability along the below-relation

`succIds` lists every id a single `gcbb` visit of a block can push
directly: the paired end and members for a Collection, the raw bottom
list, and the children for a Flow.  `ReachesBelow` is one-or-more-step
reachability along it; `getConnectedBlocksBelow` only ever returns
ids reachable this way (proved below), which is what makes a ranked
(acyclic) store exclude the start id from its own closure.
-/

/-- Direct successor ids that visiting a block can push. -/
def succIds (b : Block) : List String :=
  (if b.type = BlockType.collection then
     match b.pairedWithId with
     | some pid =>
       pid :: (match b.internalBlocks with
               | some l => l
               | none => [])
     | none => []
   else [])
  ++ b.connections.bottom
  ++ (if b.type = BlockType.flow then b.children.getD [] else [])

/-- One-or-more-step reachability along `succIds` through the store. -/
inductive ReachesBelow (blocks : List Block) : String → String → Prop where
  | step {a x : String} (b : Block) (hb : b ∈ blocks) (hid : b.id = a)
      (hx : x ∈ succIds b) : ReachesBelow blocks a x
  | trans {a b c : String} : ReachesBelow blocks a b → ReachesBelow blocks b c →
      ReachesBelow blocks a c

/-- Every block of `after` descends from a block of `before` with the same
id and the same `pairedWithId`: the operation taking `before` to `after`
never rewrites the pairing field of a surviving block. -/
def KeepsPairing (before after : List Block) : Prop :=
  ∀ b ∈ after, ∃ a ∈ before, b.id = a.id ∧ b.pairedWithId = a.pairedWithId

/-!
## Concrete states used to instantiate the claim theorems
-/

/-- A Collection bracketing one attached Action, with its paired end. -/
def c2Coll : Block :=
  { id := "C", type := BlockType.collection, title := "Collection1",
    position := ⟨0, 0⟩, connections := ⟨none, ["E", "A"]⟩,
    zIndex := 1, pairedWithId := some "E", internalBlocks := some ["A"] }

def c2End : Block :=
  { id := "E", type := BlockType.collectionEnd, title := "CollectionEnd1",
    position := ⟨0, 300⟩, connections := ⟨some "C", []⟩,
    zIndex := 2, pairedWithId := some "C" }

def c2Act : Block :=
  { id := "A", type := BlockType.action, title := "Action",
    position := ⟨0, 130⟩, connections := ⟨some "C", []⟩, zIndex := 3 }

def c2State : List Block := [c2Coll, c2End, c2Act]

def c2Conns : List Conn :=
  [⟨⟨"C", AnchorPoint.bottom⟩, ⟨"E", AnchorPoint.top⟩⟩,
   ⟨⟨"C", AnchorPoint.bottom⟩, ⟨"A", AnchorPoint.top⟩⟩]

/-- A Switch with two bottom children, used to probe the generic deletion
branch on one of them. -/
def c6Switch : Block :=
  { id := "S", type := BlockType.switchB, title := "Switch1",
    position := ⟨0, 0⟩, connections := ⟨none, ["A", "B"]⟩, zIndex := 1 }

def c6A : Block :=
  { id := "A", type := BlockType.action, title := "Action",
    position := ⟨0, 83⟩, connections := ⟨some "S", []⟩, zIndex := 2 }

def c6B : Block :=
  { id := "B", type := BlockType.action, title := "Action",
    position := ⟨250, 83⟩, connections := ⟨some "S", []⟩, zIndex := 3 }

def c6State : List Block := [c6Switch, c6A, c6B]

def c6Conns : List Conn :=
  [⟨⟨"S", AnchorPoint.bottom⟩, ⟨"A", AnchorPoint.top⟩⟩,
   ⟨⟨"S", AnchorPoint.bottom⟩, ⟨"B", AnchorPoint.top⟩⟩]

/-- A Flow holding one child block, used to probe Flow deletion. -/
def c1Flow : Block :=
  { id := "F", type := BlockType.flow, title := "Flow1",
    position := ⟨100, 100⟩, connections := ⟨none, []⟩,
    children := some ["K"], width := some FLOW_MIN_WIDTH,
    height := some FLOW_MIN_HEIGHT, zIndex := 1 }

def c1Child : Block :=
  { id := "K", type := BlockType.action, title := "Action",
    position := ⟨40, 40⟩, connections := ⟨none, []⟩,
    parentFlow := some "F", zIndex := 100 }

def c1State : List Block := [c1Flow, c1Child]

/-- A Collection whose only enclosed block sits above it: its absolute
bottom is smaller than `Collection.y + COLLECTION_BLOCK_HEIGHT`. -/
def c5Coll : Block :=
  { id := "C", type := BlockType.collection, title := "Collection1",
    position := ⟨0, 0⟩, connections := ⟨none, ["E", "A"]⟩,
    zIndex := 1, pairedWithId := some "E", internalBlocks := some [] }

def c5End : Block :=
  { id := "E", type := BlockType.collectionEnd, title := "CollectionEnd1",
    position := ⟨0, 160⟩, connections := ⟨some "C", []⟩,
    zIndex := 2, pairedWithId := some "C" }

def c5A : Block :=
  { id := "A", type := BlockType.action, title := "Action",
    position := ⟨0, -200⟩, connections := ⟨some "C", []⟩, zIndex := 3 }

def c5State : List Block := [c5Coll, c5End, c5A]

/-- The same Collection with nothing attached (only the paired end). -/
def c5CollEmpty : Block :=
  { id := "C", type := BlockType.collection, title := "Collection1",
    position := ⟨0, 0⟩, connections := ⟨none, ["E"]⟩,
    zIndex := 1, pairedWithId := some "E", internalBlocks := some [] }

def c5StateEmpty : List Block := [c5CollEmpty, c5End]

/-- A Collection source armed for explicit connect, one occupied target
and one free target. -/
def c9Src : Block :=
  { id := "CS", type := BlockType.collection, title := "Collection1",
    position := ⟨0, 0⟩, connections := ⟨none, ["CE"]⟩,
    zIndex := 1, pairedWithId := some "CE", internalBlocks := some [] }

def c9Busy : Block :=
  { id := "S2", type := BlockType.switchB, title := "Switch2",
    position := ⟨300, 0⟩, connections := ⟨some "Z", ["E2"]⟩, zIndex := 2 }

def c9Free : Block :=
  { id := "S3", type := BlockType.switchB, title := "Switch3",
    position := ⟨600, 0⟩, connections := ⟨none, ["E3"]⟩, zIndex := 3 }

def c9State : List Block := [c9Src, c9Busy, c9Free]

/-- A block attached below a CollectionEnd (whose rendered height is 40,
not 80), to probe the disconnect thresholds. -/
def c4CE : Block :=
  { id := "CE", type := BlockType.collectionEnd, title := "CollectionEnd1",
    position := ⟨0, 0⟩, connections := ⟨none, ["A"]⟩,
    zIndex := 1, pairedWithId := some "CC" }

def c4A : Block :=
  { id := "A", type := BlockType.action, title := "Action",
    position := ⟨0, 40⟩, connections := ⟨some "CE", []⟩, zIndex := 2 }

def c4State : List Block := [c4CE, c4A]

def c4Conns : List Conn :=
  [⟨⟨"CE", AnchorPoint.bottom⟩, ⟨"A", AnchorPoint.top⟩⟩]

/-- A plain Action chain (height-80 parent) for the witness. -/
def c4P : Block :=
  { id := "P", type := BlockType.action, title := "Action",
    position := ⟨0, 0⟩, connections := ⟨none, ["Q"]⟩, zIndex := 1 }

def c4Q : Block :=
  { id := "Q", type := BlockType.action, title := "Action",
    position := ⟨0, 83⟩, connections := ⟨some "P", []⟩, zIndex := 2 }

def c4StateP : List Block := [c4P, c4Q]

def c4ConnsP : List Conn :=
  [⟨⟨"P", AnchorPoint.bottom⟩, ⟨"Q", AnchorPoint.top⟩⟩]

/-- A Switch/SwitchEnd bracket pair for the protection witness. -/
def c4Sw : Block :=
  { id := "SW", type := BlockType.switchB, title := "Switch1",
    position := ⟨0, 0⟩, connections := ⟨none, ["SE"]⟩, zIndex := 1 }

def c4SE : Block :=
  { id := "SE", type := BlockType.endB, title := "SwitchEnd1",
    position := ⟨0, 100⟩, connections := ⟨some "SW", []⟩, zIndex := 2 }

def c4StateSw : List Block := [c4Sw, c4SE]

def c4ConnsSw : List Conn :=
  [⟨⟨"SW", AnchorPoint.bottom⟩, ⟨"SE", AnchorPoint.top⟩⟩]

/-- A released block living inside a Flow, with an auto-connect target
outside, to probe the snap coordinate frame. -/
def c3F : Block :=
  { id := "F", type := BlockType.flow, title := "Flow1",
    position := ⟨600, 0⟩, connections := ⟨none, []⟩,
    children := some ["C"], width := some FLOW_MIN_WIDTH,
    height := some FLOW_MIN_HEIGHT, zIndex := 1 }

def c3Cur : Block :=
  { id := "C", type := BlockType.action, title := "Action",
    position := ⟨40, 40⟩, connections := ⟨none, []⟩,
    parentFlow := some "F", zIndex := 1000 }

def c3T : Block :=
  { id := "T", type := BlockType.action, title := "Action",
    position := ⟨660, -40⟩, connections := ⟨none, []⟩, zIndex := 2 }

def c3State : List Block := [c3F, c3Cur, c3T]

/-- Two free-standing Actions within snap tolerance for the witness. -/
def c3P : Block :=
  { id := "P", type := BlockType.action, title := "Action",
    position := ⟨0, 0⟩, connections := ⟨none, []⟩, zIndex := 1 }

def c3Q : Block :=
  { id := "Q", type := BlockType.action, title := "Action",
    position := ⟨0, 85⟩, connections := ⟨none, []⟩, zIndex := 1000 }

def c3StateW : List Block := [c3P, c3Q]

/-- A two-block acyclic chain for the rank-function witness. -/
def c7Top : Block :=
  { id := "X", type := BlockType.action, title := "Action",
    position := ⟨0, 0⟩, connections := ⟨none, ["Y"]⟩, zIndex := 1 }

def c7Bot : Block :=
  { id := "Y", type := BlockType.action, title := "Action",
    position := ⟨0, 83⟩, connections := ⟨some "X", []⟩, zIndex := 2 }

def c7State : List Block := [c7Top, c7Bot]

/-- A Collection/CollectionEnd pair used to instantiate the pairing
invariant: both `pairedWithId` references present and symmetric. -/
def c8Coll : Block :=
  { id := "PC", type := BlockType.collection, title := "Collection1",
    position := ⟨0, 0⟩, connections := ⟨none, ["PE"]⟩,
    zIndex := 1, pairedWithId := some "PE", internalBlocks := some [] }

def c8End : Block :=
  { id := "PE", type := BlockType.collectionEnd, title := "CollectionEnd1",
    position := ⟨0, 160⟩, connections := ⟨some "PC", []⟩,
    zIndex := 2, pairedWithId := some "PC" }

def c8State : List Block := [c8Coll, c8End]

/-!
# Helper lemmas
-/

theorem contains_iff_mem {l : List String} {a : String} :
    l.contains a = true ↔ a ∈ l := by
  simp [List.contains, List.elem_iff]

theorem findBlock_map {f : Block → Block} (hf : ∀ b, (f b).id = b.id)
    (blocks : List Block) (id : String) :
    findBlock (blocks.map f) id = (findBlock blocks id).map f := by
  induction blocks with
  | nil => rfl
  | cons b bs ih =>
    by_cases h : b.id = id
    · simp [findBlock, List.find?_cons, hf b, h]
    · simp only [findBlock] at ih
      simp [findBlock, List.find?_cons, hf b, h, ih]

theorem filter_map_of_pres {f : Block → Block} {p : Block → Bool}
    (hp : ∀ b, p (f b) = p b) (l : List Block) :
    (l.map f).filter p = (l.filter p).map f := by
  induction l with
  | nil => rfl
  | cons b bs ih =>
    simp only [List.map_cons, List.filter_cons, hp]
    cases p b <;> simp [ih]

theorem findBlock_mem {blocks : List Block} {id : String} {b : Block}
    (h : findBlock blocks id = some b) : b ∈ blocks ∧ b.id = id := by
  unfold findBlock at h
  refine ⟨List.mem_of_find?_eq_some h, ?_⟩
  have := List.find?_some h
  simpa using this

/-- Claim C10: running the Flow reflow pass twice in succession commits,
on the second run, exactly the same block list — in particular the same
child positions and the same Flow width and height — as after the first
run. -/
theorem c10_reflow_idempotent (blocks : List Block) (flowId : String) :
    organizeBlocksInFlow (organizeBlocksInFlow blocks flowId) flowId =
      organizeBlocksInFlow blocks flowId := by
  cases hfb : findBlock blocks flowId with
  | none =>
    have h1 : organizeBlocksInFlow blocks flowId = blocks := by
      unfold organizeBlocksInFlow; rw [hfb]
    rw [h1, h1]
  | some fl =>
    by_cases hty : fl.type = BlockType.flow
    · by_cases hch : (blocks.filter (fun b => b.parentFlow = some flowId)).length = 0
      · have h1 : organizeBlocksInFlow blocks flowId = blocks := by
          unfold organizeBlocksInFlow; rw [hfb]; simp [hty, hch]
        rw [h1, h1]
      · have h1 : organizeBlocksInFlow blocks flowId = updateFlowSize blocks flowId := by
          unfold organizeBlocksInFlow; rw [hfb]; simp [hty, hch]
        set wh := calculateFlowSize blocks flowId with hwh
        set f : Block → Block := fun b =>
          if b.id = flowId then { b with width := some wh.1, height := some wh.2 } else b
          with hfdef
        have hfid : ∀ b, (f b).id = b.id := by
          intro b; simp only [hfdef]; split <;> rfl
        have hfpf : ∀ b, (f b).parentFlow = b.parentFlow := by
          intro b; simp only [hfdef]; split <;> rfl
        have hfty : ∀ b, (f b).type = b.type := by
          intro b; simp only [hfdef]; split <;> rfl
        have hupd : updateFlowSize blocks flowId = blocks.map f := by
          unfold updateFlowSize; rw [← hwh]
        have hfilter : ∀ (l : List Block),
            (l.map f).filter (fun b => b.parentFlow = some flowId) =
              (l.filter (fun b => b.parentFlow = some flowId)).map f := by
          intro l
          refine filter_map_of_pres ?_ l
          intro b; simp [hfpf b]
        have hcalc : calculateFlowSize (blocks.map f) flowId = wh := by
          rw [hwh]
          unfold calculateFlowSize
          simp only [hfilter blocks, List.length_map]
        have hfind2 : findBlock (blocks.map f) flowId = some (f fl) := by
          rw [findBlock_map hfid, hfb]; rfl
        have hch2 : ¬((blocks.map f).filter
            (fun b => b.parentFlow = some flowId)).length = 0 := by
          rw [hfilter blocks, List.length_map]; exact hch
        have h2 : organizeBlocksInFlow (blocks.map f) flowId =
            updateFlowSize (blocks.map f) flowId := by
          unfold organizeBlocksInFlow; rw [hfind2]
          simp [hfty fl, hty, hch2]
        have h3 : updateFlowSize (blocks.map f) flowId = blocks.map f := by
          unfold updateFlowSize
          rw [hcalc, List.map_map]
          refine List.map_congr_left ?_
          intro b _
          simp only [Function.comp, hfdef]
          by_cases h : b.id = flowId <;> simp [h]
        rw [h1, hupd, h2, h3]
    · have h1 : organizeBlocksInFlow blocks flowId = blocks := by
        unfold organizeBlocksInFlow; rw [hfb]; simp [hty]
      rw [h1, h1]

/-- Claim C2 (amended): deleting a Collection removes exactly the
Collection and its paired CollectionEnd plus every edge touching either of
them; every other block — in particular every enclosed block — survives
with all fields unchanged, so the block that was directly attached below
the Collection keeps its now-dangling `connections.top` reference to the
deleted Collection rather than becoming a root with `top = null`. -/
theorem c2_collection_delete (blocks : List Block) (conns : List Conn)
    (c : Block) (eid : String)
    (hc : findBlock blocks c.id = some c)
    (hty : c.type = BlockType.collection)
    (hpair : c.pairedWithId = some eid) :
    (removeBlock blocks conns c.id).1 =
        blocks.filter (fun b => ¬([c.id, eid].contains b.id))
    ∧ (removeBlock blocks conns c.id).2 = removeConnsTouching [c.id, eid] conns
    ∧ (∀ b ∈ blocks, ¬(b.id = c.id) → ¬(b.id = eid) →
        b ∈ (removeBlock blocks conns c.id).1)
    ∧ (∀ cn ∈ conns,
        cn ∈ (removeBlock blocks conns c.id).2 ↔
          (¬(cn.fromPt.id = c.id) ∧ ¬(cn.fromPt.id = eid)
           ∧ ¬(cn.toPt.id = c.id) ∧ ¬(cn.toPt.id = eid)))
    ∧ (∀ b ∈ blocks, b.connections.top = some c.id → ¬(b.id = c.id) → ¬(b.id = eid) →
        b ∈ (removeBlock blocks conns c.id).1 ∧ b.connections.top ≠ none) := by
  have hmain : removeBlock blocks conns c.id =
      (blocks.filter (fun b => ¬([c.id, eid].contains b.id)),
       removeConnsTouching [c.id, eid] conns) := by
    unfold removeBlock
    rw [hc]
    simp only [hty, hpair]
  rw [hmain]
  have hsurv : ∀ b ∈ blocks, ¬(b.id = c.id) → ¬(b.id = eid) →
      b ∈ blocks.filter (fun b => ¬([c.id, eid].contains b.id)) := by
    intro b hb h1 h2
    refine List.mem_filter.mpr ⟨hb, ?_⟩
    simp [contains_iff_mem, h1, h2]
  refine ⟨rfl, rfl, hsurv, ?_, ?_⟩
  · intro cn hcn
    unfold removeConnsTouching
    simp only [List.mem_filter, hcn, true_and, contains_iff_mem]
    simp [List.mem_cons]
    tauto
  · intro b hb htop h1 h2
    exact ⟨hsurv b hb h1 h2, by simp [htop]⟩

/-- Claim C2 counterexample: in a Collection with one attached enclosed
Action, deleting the Collection leaves exactly the Action behind, and the
Action's `connections.top` still holds the deleted Collection's id `"C"` —
it is not cleared to `null` as the claim states. -/
theorem c2_counterexample :
    ((removeBlock c2State c2Conns "C").1.map
        (fun b => (b.id, b.connections.top))) = [("A", some "C")] := by
  decide

theorem c2_collection_delete_witness :
    c2Act ∈ (removeBlock c2State c2Conns "C").1
    ∧ c2Act.connections.top ≠ none := by
  have h := c2_collection_delete c2State c2Conns c2Coll "E" (by decide) rfl rfl
  exact h.2.2.2.2 c2Act (by decide) rfl (by decide) (by decide)

/-- Claim C6 (amended): deleting an Action, Table, Start or plain End
block removes exactly the edges incident to it; every other block is kept
(filtered through `clearNeighborRefs`), a block whose `connections.top`
contains the deleted id has its top cleared, and a block whose
`connections.bottom` contains the deleted id has its whole bottom list
reset to the empty list — the remaining entries are dropped too, they are
not left unchanged; blocks matching neither test are untouched. -/
theorem c6_plain_delete (blocks : List Block) (conns : List Conn)
    (b0 : Block)
    (hc : findBlock blocks b0.id = some b0)
    (hty : b0.type = BlockType.action ∨ b0.type = BlockType.table
           ∨ b0.type = BlockType.start ∨ b0.type = BlockType.endB)
    (htitle : strStartsWith b0.title "SwitchEnd" = false) :
    (removeBlock blocks conns b0.id).1 =
        (blocks.map (clearNeighborRefs b0.id)).filter (fun b => ¬(b.id = b0.id))
    ∧ (removeBlock blocks conns b0.id).2 =
        conns.filter (fun c => ¬(c.fromPt.id = b0.id) ∧ ¬(c.toPt.id = b0.id))
    ∧ (∀ cn ∈ conns, cn ∈ (removeBlock blocks conns b0.id).2 ↔
          (¬(cn.fromPt.id = b0.id) ∧ ¬(cn.toPt.id = b0.id)))
    ∧ (∀ b ∈ blocks, ¬(b.id = b0.id) →
        (match b.connections.top with
         | some t => strIncludes t b0.id
         | none => false) = false →
        b.connections.bottom.contains b0.id = false →
        b ∈ (removeBlock blocks conns b0.id).1)
    ∧ (∀ b ∈ blocks, ¬(b.id = b0.id) →
        (match b.connections.top with
         | some t => strIncludes t b0.id
         | none => false) = false →
        b.connections.bottom.contains b0.id = true →
        { b with connections := { b.connections with bottom := ([] : List String) } }
          ∈ (removeBlock blocks conns b0.id).1) := by
  have hmain : removeBlock blocks conns b0.id =
      ((blocks.map (clearNeighborRefs b0.id)).filter (fun b => ¬(b.id = b0.id)),
       conns.filter (fun c => ¬(c.fromPt.id = b0.id) ∧ ¬(c.toPt.id = b0.id))) := by
    unfold removeBlock
    rw [hc]
    rcases hty with h | h | h | h <;> simp only [h] <;> simp [htitle]
  rw [hmain]
  refine ⟨rfl, rfl, ?_, ?_, ?_⟩
  · intro cn hcn
    simp [List.mem_filter, hcn]
  · intro b hb hid htop hbot
    have hclear : clearNeighborRefs b0.id b = b := by
      unfold clearNeighborRefs
      rw [htop, hbot]
      simp
    refine List.mem_filter.mpr ⟨List.mem_map.mpr ⟨b, hb, hclear⟩, ?_⟩
    simp [hid]
  · intro b hb hid htop hbot
    have hclear : clearNeighborRefs b0.id b =
        { b with connections := { b.connections with bottom := ([] : List String) } } := by
      unfold clearNeighborRefs
      rw [htop, hbot]
      simp
    refine List.mem_filter.mpr ⟨List.mem_map.mpr ⟨b, hb, hclear⟩, ?_⟩
    simp [hid]

/-- Claim C6 counterexample: a Switch has bottom entries `["A", "B"]`;
deleting the Action `"A"` resets the Switch's whole `connections.bottom`
to `[]`, dropping the unrelated remaining entry `"B"` as well, contrary to
the claim that remaining entries are left unchanged. -/
theorem c6_counterexample :
    (findBlock (removeBlock c6State c6Conns "A").1 "S").map
        (fun b => b.connections.bottom) = some []
    ∧ c6Switch.connections.bottom = ["A", "B"] := by
  decide

theorem c6_plain_delete_witness :
    { c6Switch with connections :=
        { c6Switch.connections with bottom := ([] : List String) } }
      ∈ (removeBlock c6State c6Conns "A").1 := by
  have h := c6_plain_delete c6State c6Conns c6A (by decide) (Or.inl rfl) (by decide)
  exact h.2.2.2.2 c6Switch (by decide) (by decide) (by decide) (by decide)

/-- Claim C1: deleting a Flow with one child.  The committed state keeps
the child `"K"` with `parentFlow` still pointing at the deleted Flow and
its Flow-local position `(40, 40)` unchanged: the detach of lines 523-542
is computed (second conjunct shows the write's value: `parentFlow`
cleared, position translated to the absolute `(140, 140)`) but the
handler's later direct writes, built from the same snapshot, replace it,
so the children are never actually detached. -/
theorem c1_flow_delete_keeps_children_attached :
    (removeBlock c1State [] "F").1.map
        (fun b => (b.id, b.parentFlow, b.position))
      = [("K", some "F", (⟨40, 40⟩ : Pos))]
    ∧ (flowDetachWrite c1State c1Flow).map
        (fun b => (b.id, b.parentFlow, b.position))
      = [("F", none, (⟨100, 100⟩ : Pos)), ("K", none, (⟨140, 140⟩ : Pos))] := by
  decide

theorem endFoldStep_ge (blocks : List Block) (m : Int) (bid : String) :
    m ≤ endFoldStep blocks m bid := by
  unfold endFoldStep
  cases findBlock blocks bid with
  | none => exact le_refl m
  | some b =>
    simp only
    split <;> omega

theorem endFold_ge_init (blocks : List Block) (l : List String) (init : Int) :
    init ≤ l.foldl (endFoldStep blocks) init := by
  induction l generalizing init with
  | nil => exact le_refl init
  | cons a rest ih =>
    exact le_trans (endFoldStep_ge blocks init a) (ih _)

theorem endFold_ge_elem (blocks : List Block) :
    ∀ (l : List String) (init : Int) (bid : String) (b : Block),
      bid ∈ l → findBlock blocks bid = some b →
      (getAbsolutePosition blocks b).y + blockHeightOf b.type ≤
        l.foldl (endFoldStep blocks) init := by
  intro l
  induction l with
  | nil => intro init bid b h; cases h
  | cons a rest ih =>
    intro init bid b hmem hfind
    rcases List.mem_cons.mp hmem with h | h
    · subst h
      have hstep : (getAbsolutePosition blocks b).y + blockHeightOf b.type ≤
          endFoldStep blocks init bid := by
        unfold endFoldStep
        rw [hfind]
        simp only
        split <;> omega
      exact le_trans hstep (endFold_ge_init blocks rest _)
    · exact ih _ bid b h hfind

theorem endFold_cases (blocks : List Block) :
    ∀ (l : List String) (init : Int),
      l.foldl (endFoldStep blocks) init = init
      ∨ ∃ bid ∈ l, ∃ b, findBlock blocks bid = some b ∧
          l.foldl (endFoldStep blocks) init =
            (getAbsolutePosition blocks b).y + blockHeightOf b.type := by
  intro l
  induction l with
  | nil => intro init; exact Or.inl rfl
  | cons a rest ih =>
    intro init
    have hfold : (a :: rest).foldl (endFoldStep blocks) init =
        rest.foldl (endFoldStep blocks) (endFoldStep blocks init a) := rfl
    rcases ih (endFoldStep blocks init a) with h | h
    · cases hf : findBlock blocks a with
      | none =>
        left
        rw [hfold, h]
        unfold endFoldStep
        rw [hf]
      | some b =>
        by_cases hgt : (getAbsolutePosition blocks b).y + blockHeightOf b.type > init
        · right
          refine ⟨a, List.mem_cons_self a rest, b, hf, ?_⟩
          rw [hfold, h]
          unfold endFoldStep
          rw [hf]
          simp only
          rw [if_pos hgt]
        · left
          rw [hfold, h]
          unfold endFoldStep
          rw [hf]
          simp only
          rw [if_neg hgt]
    · right
      obtain ⟨bid, hbid, b, hfb, heq⟩ := h
      exact ⟨bid, List.mem_cons_of_mem a hbid, b, hfb, by rw [hfold, heq]⟩

/-- Claim C5 (amended): for a Collection with a paired End,
`updateCollectionEndPosition` sets `End.x = Collection.x` and
`internalBlocks` to the accumulated enclosed list; with no enclosed
blocks `End.y = Collection.y + 2*BLOCK_HEIGHT`, and otherwise `End.y` is
the maximum of `Collection.y + COLLECTION_BLOCK_HEIGHT` (a floor the
claim omits) and every enclosed block's `absoluteY + typeHeight`, plus
`BLOCK_HEIGHT + 10`. -/
theorem c5_recompute_end (blocks : List Block) (c e : Block) (eid : String)
    (hfind : blocks.find? (fun b => b.id = c.id ∧ b.type = BlockType.collection) = some c)
    (hcc : findBlock blocks c.id = some c)
    (hpair : c.pairedWithId = some eid)
    (hce : findBlock blocks eid = some e)
    (hne : ¬(eid = c.id)) :
    ((findBlock (updateCollectionEndPosition blocks c.id) eid).map
        (fun b => b.position.x) = some c.position.x)
    ∧ ((findBlock (updateCollectionEndPosition blocks c.id) c.id).map
        (fun b => b.internalBlocks)
          = some (some (connectedBlocksOfCollection blocks c eid)))
    ∧ (connectedBlocksOfCollection blocks c eid = [] →
        (findBlock (updateCollectionEndPosition blocks c.id) eid).map
          (fun b => b.position.y) = some (c.position.y + 2 * BLOCK_HEIGHT))
    ∧ (connectedBlocksOfCollection blocks c eid ≠ [] →
        ∃ y : Int,
          (findBlock (updateCollectionEndPosition blocks c.id) eid).map
            (fun b => b.position.y) = some y
          ∧ c.position.y + COLLECTION_BLOCK_HEIGHT + BLOCK_HEIGHT + 10 ≤ y
          ∧ (∀ bid ∈ connectedBlocksOfCollection blocks c eid, ∀ b',
              findBlock blocks bid = some b' →
              (getAbsolutePosition blocks b').y + blockHeightOf b'.type
                + BLOCK_HEIGHT + 10 ≤ y)
          ∧ (y = c.position.y + COLLECTION_BLOCK_HEIGHT + BLOCK_HEIGHT + 10
             ∨ ∃ bid ∈ connectedBlocksOfCollection blocks c eid, ∃ b',
                 findBlock blocks bid = some b'
                 ∧ y = (getAbsolutePosition blocks b').y + blockHeightOf b'.type
                     + BLOCK_HEIGHT + 10)) := by
  have heid : e.id = eid := (findBlock_mem hce).2
  set enclosed := connectedBlocksOfCollection blocks c eid with hEnc
  set Y : Int :=
    (if enclosed = [] then c.position.y + COLLECTION_DEFAULT_GAP
     else (enclosed.foldl (endFoldStep blocks)
            (c.position.y + COLLECTION_BLOCK_HEIGHT)) + BLOCK_HEIGHT + 10) with hYdef
  set f : Block → Block := fun b =>
    if b.id = eid then { b with position := ⟨c.position.x, Y⟩ } else b with hf
  set g : Block → Block := fun b =>
    if b.id = c.id then { b with internalBlocks := some enclosed } else b with hg
  have hfid : ∀ b, (f b).id = b.id := by
    intro b; simp only [hf]; split <;> rfl
  have hgid : ∀ b, (g b).id = b.id := by
    intro b; simp only [hg]; split <;> rfl
  have hmain : updateCollectionEndPosition blocks c.id = (blocks.map f).map g := by
    unfold updateCollectionEndPosition
    rw [hfind]
    simp only [hpair]
    rw [hce]
  have hfe : findBlock ((blocks.map f).map g) eid = some (g (f e)) := by
    rw [findBlock_map hgid, findBlock_map hfid, hce]
    rfl
  have hfee : f e = { e with position := ⟨c.position.x, Y⟩ } := by
    simp only [hf]
    exact if_pos heid
  have hgfe : g (f e) = { e with position := ⟨c.position.x, Y⟩ } := by
    rw [hfee]
    simp only [hg]
    refine if_neg (fun h => hne ?_)
    rw [← heid]
    exact h
  have hfc : findBlock ((blocks.map f).map g) c.id = some (g (f c)) := by
    rw [findBlock_map hgid, findBlock_map hfid, hcc]
    rfl
  have hfcc : f c = c := by
    simp only [hf]
    exact if_neg (fun h => hne h.symm)
  have hgfc : g (f c) = { c with internalBlocks := some enclosed } := by
    rw [hfcc]
    simp [hg]
  refine ⟨?_, ?_, ?_, ?_⟩
  · rw [hmain, hfe, hgfe]
    rfl
  · rw [hmain, hfc, hgfc]
    rfl
  · intro hempty
    rw [hmain, hfe, hgfe]
    show some Y = some (c.position.y + 2 * BLOCK_HEIGHT)
    rw [hYdef, if_pos hempty]
    rfl
  · intro hne2
    have hYval : Y = (enclosed.foldl (endFoldStep blocks)
        (c.position.y + COLLECTION_BLOCK_HEIGHT)) + BLOCK_HEIGHT + 10 := by
      rw [hYdef, if_neg hne2]
    refine ⟨Y, ?_, ?_, ?_, ?_⟩
    · rw [hmain, hfe, hgfe]
      rfl
    · have h1 := endFold_ge_init blocks enclosed (c.position.y + COLLECTION_BLOCK_HEIGHT)
      rw [hYval]
      linarith
    · intro bid hbid b' hb'
      have h1 := endFold_ge_elem blocks enclosed
        (c.position.y + COLLECTION_BLOCK_HEIGHT) bid b' hbid hb'
      rw [hYval]
      linarith
    · rcases endFold_cases blocks enclosed (c.position.y + COLLECTION_BLOCK_HEIGHT)
        with h | ⟨bid, hbid, b', hb', heq⟩
      · left
        rw [hYval, h]
      · right
        exact ⟨bid, hbid, b', hb', by rw [hYval, heq]⟩

/-- Claim C5 counterexample: the Collection's only enclosed block `"A"`
sits above it, so the claim's formula `max(absoluteY + typeHeight) +
BLOCK_HEIGHT + MARGIN` yields `-30`, but the code clamps the scan at
`Collection.y + COLLECTION_BLOCK_HEIGHT` and places the End at `130`. -/
theorem c5_counterexample :
    connectedBlocksOfCollection c5State c5Coll "E" = ["A"]
    ∧ (getAbsolutePosition c5State c5A).y + blockHeightOf c5A.type
        + BLOCK_HEIGHT + 10 = (-30 : Int)
    ∧ (findBlock (updateCollectionEndPosition c5State "C") "E").map
        (fun b => b.position.y) = some 130 := by
  decide

theorem c5_recompute_end_witness :
    (findBlock (updateCollectionEndPosition c5StateEmpty "C") "E").map
      (fun b => b.position.y) = some (c5CollEmpty.position.y + 2 * BLOCK_HEIGHT) := by
  have h := c5_recompute_end c5StateEmpty c5CollEmpty c5End "E"
    (by decide) (by decide) rfl (by decide) (by decide)
  exact h.2.2.1 (by decide)

theorem connectCommitBlocks_facts (blocks : List Block) (sb tb : Block)
    (hmem : sb ∈ blocks)
    (hsbfind : findBlock blocks sb.id = some sb)
    (htbfind : findBlock blocks tb.id = some tb)
    (hne : ¬(tb.id = sb.id)) :
    (findBlock (connectCommitBlocks blocks sb tb) tb.id).map
        (fun b => (b.connections.top, b.zIndex))
      = some (some sb.id, max (sb.zIndex + 1) tb.zIndex)
    ∧ (findBlock (connectCommitBlocks blocks sb tb) sb.id).map
        (fun b => b.connections.bottom)
      = some (sb.connections.bottom ++ [tb.id])
    ∧ (sb.type = BlockType.collection →
        ∃ l, (findBlock (connectCommitBlocks blocks sb tb) sb.id).map
            (fun b => b.internalBlocks) = some (some l) ∧ tb.id ∈ l) := by
  set f : Block → Block := fun b =>
    if b.id = sb.id then
      { b with connections :=
          { b.connections with bottom := b.connections.bottom ++ [tb.id] } }
    else if b.id = tb.id then
      { b with connections := { b.connections with top := some sb.id },
               zIndex := max (sb.zIndex + 1) tb.zIndex }
    else b with hf
  have hfid : ∀ b, (f b).id = b.id := by
    intro b
    simp only [hf]
    split
    · rfl
    · split <;> rfl
  have hcu : connectUpdate blocks sb tb = blocks.map f := rfl
  have hftb : f tb = { tb with connections := { tb.connections with top := some sb.id },
                                zIndex := max (sb.zIndex + 1) tb.zIndex } := by
    simp only [hf]
    rw [if_neg hne]
    simp
  have hfsb : f sb = { sb with connections :=
      { sb.connections with bottom := sb.connections.bottom ++ [tb.id] } } := by
    simp [hf]
  by_cases hcoll : sb.type = BlockType.collection
  · set h : Block → Block := fun b =>
      if b.id = sb.id then
        (let updatedInternalBlocks := b.internalBlocks.getD []
         if updatedInternalBlocks.contains tb.id then
           { b with internalBlocks := some updatedInternalBlocks }
         else
           { b with internalBlocks := some (updatedInternalBlocks ++ [tb.id]) })
      else b with hh
    have hhid : ∀ b, (h b).id = b.id := by
      intro b
      simp only [hh]
      split
      · split <;> rfl
      · rfl
    have hguard : (blocks.find?
        (fun b => b.id = sb.id ∧ b.type = BlockType.collection)).isSome := by
      refine List.find?_isSome.mpr ⟨sb, hmem, ?_⟩
      simp [hcoll]
    obtain ⟨x, hx⟩ := Option.isSome_iff_exists.mp hguard
    have hcommit : connectCommitBlocks blocks sb tb = (blocks.map f).map h := by
      unfold connectCommitBlocks addBlockToCollection
      rw [if_pos hcoll, hcu, hx]
    have htb2 : findBlock ((blocks.map f).map h) tb.id = some (h (f tb)) := by
      rw [findBlock_map hhid, findBlock_map hfid, htbfind]
      rfl
    have hsb2 : findBlock ((blocks.map f).map h) sb.id = some (h (f sb)) := by
      rw [findBlock_map hhid, findBlock_map hfid, hsbfind]
      rfl
    have hhftb : h (f tb) = f tb := by
      simp only [hh]
      rw [hftb]
      exact if_neg hne
    have hfsbid : (f sb).id = sb.id := hfid sb
    refine ⟨?_, ?_, ?_⟩
    · rw [hcommit, htb2, hhftb, hftb]
      rfl
    · rw [hcommit, hsb2]
      have : (h (f sb)).connections = (f sb).connections := by
        simp only [hh]
        rw [if_pos hfsbid]
        split <;> rfl
      rw [Option.map_some']
      rw [this, hfsb]
    · intro _
      rw [hcommit, hsb2]
      refine ⟨if ((f sb).internalBlocks.getD []).contains tb.id
          then (f sb).internalBlocks.getD []
          else (f sb).internalBlocks.getD [] ++ [tb.id], ?_, ?_⟩
      · rw [Option.map_some']
        have : (h (f sb)).internalBlocks =
            some (if ((f sb).internalBlocks.getD []).contains tb.id
              then (f sb).internalBlocks.getD []
              else (f sb).internalBlocks.getD [] ++ [tb.id]) := by
          simp only [hh]
          rw [if_pos hfsbid]
          split <;> simp_all
        rw [this]
      · split
        · next hcont => exact contains_iff_mem.mp hcont
        · exact List.mem_append_right _ (List.mem_singleton.mpr rfl)
  · have hcommit : connectCommitBlocks blocks sb tb = blocks.map f := by
      unfold connectCommitBlocks
      rw [if_neg hcoll, hcu]
    have htb2 : findBlock (blocks.map f) tb.id = some (f tb) := by
      rw [findBlock_map hfid, htbfind]
      rfl
    have hsb2 : findBlock (blocks.map f) sb.id = some (f sb) := by
      rw [findBlock_map hfid, hsbfind]
      rfl
    refine ⟨?_, ?_, fun hx => absurd hx hcoll⟩
    · rw [hcommit, htb2, hftb]
      rfl
    · rw [hcommit, hsb2, hfsb]
      rfl

theorem c9ClickOccupied (blocks : List Block) (conns : List Conn)
    (cn : Connecting) (blockId : String) (pt : AnchorPoint) (tb sb : Block)
    (htb : findBlock blocks blockId = some tb)
    (htty : tb.type = BlockType.switchB ∨ tb.type = BlockType.collection
            ∨ tb.type = BlockType.flow)
    (hne : ¬(cn.blockId = blockId))
    (hsb : findBlock blocks cn.blockId = some sb)
    (hpt : cn.point = AnchorPoint.bottom)
    (htop : ¬(tb.connections.top = none)) :
    handleConnectorClick blocks conns (some cn) blockId pt = (blocks, conns, none) := by
  simp [handleConnectorClick, htb, hsb, htty, hne, hpt, htop]

theorem c9ClickFree (blocks : List Block) (conns : List Conn)
    (cn : Connecting) (blockId : String) (pt : AnchorPoint) (tb sb : Block)
    (htb : findBlock blocks blockId = some tb)
    (htty : tb.type = BlockType.switchB ∨ tb.type = BlockType.collection
            ∨ tb.type = BlockType.flow)
    (hne : ¬(cn.blockId = blockId))
    (hsb : findBlock blocks cn.blockId = some sb)
    (hpt : cn.point = AnchorPoint.bottom)
    (htop : tb.connections.top = none) :
    handleConnectorClick blocks conns (some cn) blockId pt =
      (connectCommitBlocks blocks sb tb,
       conns ++ [⟨⟨sb.id, AnchorPoint.bottom⟩, ⟨tb.id, AnchorPoint.top⟩⟩],
       none) := by
  simp [handleConnectorClick, htb, hsb, htty, hne, hpt, htop]

theorem c9DragStartOccupied (blocks : List Block) (conns : List Conn)
    (cn : Connecting) (id : String) (tb sb : Block)
    (htb : findBlock blocks id = some tb)
    (hne : ¬(cn.blockId = id ∨ ¬(cn.point = AnchorPoint.bottom)))
    (hsb : findBlock blocks cn.blockId = some sb)
    (hsty : (sb.type = BlockType.switchB ∨ sb.type = BlockType.collection)
            ∧ ¬(tb.type = BlockType.start))
    (htop : ¬(tb.connections.top = none)) :
    handleDragStartConnect blocks conns (some cn) id = some (blocks, conns) := by
  have h1 : ¬(cn.blockId = id) := fun h => hne (Or.inl h)
  have h2 : cn.point = AnchorPoint.bottom := by
    by_contra h
    exact hne (Or.inr h)
  simp [handleDragStartConnect, htb, hsb, h1, h2, hsty.1, hsty.2, htop]

theorem c9DragStartFree (blocks : List Block) (conns : List Conn)
    (cn : Connecting) (id : String) (tb sb : Block)
    (htb : findBlock blocks id = some tb)
    (hne : ¬(cn.blockId = id ∨ ¬(cn.point = AnchorPoint.bottom)))
    (hsb : findBlock blocks cn.blockId = some sb)
    (hsty : (sb.type = BlockType.switchB ∨ sb.type = BlockType.collection)
            ∧ ¬(tb.type = BlockType.start))
    (htop : tb.connections.top = none) :
    handleDragStartConnect blocks conns (some cn) id =
      some (connectCommitBlocks blocks sb tb,
        conns ++ [⟨⟨sb.id, AnchorPoint.bottom⟩, ⟨tb.id, AnchorPoint.top⟩⟩]) := by
  have h1 : ¬(cn.blockId = id) := fun h => hne (Or.inl h)
  have h2 : cn.point = AnchorPoint.bottom := by
    by_contra h
    exact hne (Or.inr h)
  simp [handleDragStartConnect, htb, hsb, h1, h2, hsty.1, hsty.2, htop]

/-- Claim C9: completing a pending explicit connection onto a target whose
`connections.top` is occupied silently fails — the state is returned
unchanged apart from the pending-connect state being cleared — on both
completion paths (connector click, and press while armed); when the
target's `top` is null the edge is appended to the edge list, the target's
top points at the source, the target's z-order is raised strictly above
the source's, and a Collection source additionally records the target in
its `internalBlocks`. -/
theorem c9_pending_connect_guard :
    (∀ (blocks : List Block) (conns : List Conn) (cn : Connecting)
       (blockId : String) (pt : AnchorPoint) (tb sb : Block),
      findBlock blocks blockId = some tb →
      (tb.type = BlockType.switchB ∨ tb.type = BlockType.collection
        ∨ tb.type = BlockType.flow) →
      ¬(cn.blockId = blockId) →
      findBlock blocks cn.blockId = some sb →
      cn.point = AnchorPoint.bottom →
      ¬(tb.connections.top = none) →
      handleConnectorClick blocks conns (some cn) blockId pt = (blocks, conns, none))
    ∧ (∀ (blocks : List Block) (conns : List Conn) (cn : Connecting)
         (blockId : String) (pt : AnchorPoint) (tb sb : Block),
        findBlock blocks blockId = some tb →
        (tb.type = BlockType.switchB ∨ tb.type = BlockType.collection
          ∨ tb.type = BlockType.flow) →
        ¬(cn.blockId = blockId) →
        findBlock blocks cn.blockId = some sb →
        cn.point = AnchorPoint.bottom →
        tb.connections.top = none →
        sb ∈ blocks →
        findBlock blocks sb.id = some sb →
        findBlock blocks tb.id = some tb →
        ¬(tb.id = sb.id) →
        (handleConnectorClick blocks conns (some cn) blockId pt).2.1 =
            conns ++ [⟨⟨sb.id, AnchorPoint.bottom⟩, ⟨tb.id, AnchorPoint.top⟩⟩]
        ∧ (handleConnectorClick blocks conns (some cn) blockId pt).2.2 = none
        ∧ (findBlock (handleConnectorClick blocks conns (some cn) blockId pt).1 tb.id).map
              (fun b => (b.connections.top, b.zIndex))
            = some (some sb.id, max (sb.zIndex + 1) tb.zIndex)
        ∧ max (sb.zIndex + 1) tb.zIndex > sb.zIndex
        ∧ (findBlock (handleConnectorClick blocks conns (some cn) blockId pt).1 sb.id).map
              (fun b => b.connections.bottom)
            = some (sb.connections.bottom ++ [tb.id])
        ∧ (sb.type = BlockType.collection →
            ∃ l, (findBlock
                (handleConnectorClick blocks conns (some cn) blockId pt).1 sb.id).map
                  (fun b => b.internalBlocks) = some (some l) ∧ tb.id ∈ l))
    ∧ (∀ (blocks : List Block) (conns : List Conn) (cn : Connecting)
         (id : String) (tb sb : Block),
        findBlock blocks id = some tb →
        ¬(cn.blockId = id ∨ ¬(cn.point = AnchorPoint.bottom)) →
        findBlock blocks cn.blockId = some sb →
        ((sb.type = BlockType.switchB ∨ sb.type = BlockType.collection)
          ∧ ¬(tb.type = BlockType.start)) →
        ¬(tb.connections.top = none) →
        handleDragStartConnect blocks conns (some cn) id = some (blocks, conns))
    ∧ (∀ (blocks : List Block) (conns : List Conn) (cn : Connecting)
         (id : String) (tb sb : Block),
        findBlock blocks id = some tb →
        ¬(cn.blockId = id ∨ ¬(cn.point = AnchorPoint.bottom)) →
        findBlock blocks cn.blockId = some sb →
        ((sb.type = BlockType.switchB ∨ sb.type = BlockType.collection)
          ∧ ¬(tb.type = BlockType.start)) →
        tb.connections.top = none →
        sb ∈ blocks →
        findBlock blocks sb.id = some sb →
        findBlock blocks tb.id = some tb →
        ¬(tb.id = sb.id) →
        (handleDragStartConnect blocks conns (some cn) id).map (fun r => r.2) =
            some (conns ++ [⟨⟨sb.id, AnchorPoint.bottom⟩, ⟨tb.id, AnchorPoint.top⟩⟩])
        ∧ (handleDragStartConnect blocks conns (some cn) id).map
              (fun r => (findBlock r.1 tb.id).map (fun b => (b.connections.top, b.zIndex)))
            = some (some (some sb.id, max (sb.zIndex + 1) tb.zIndex))
        ∧ (sb.type = BlockType.collection →
            ∃ l, (handleDragStartConnect blocks conns (some cn) id).map
                (fun r => (findBlock r.1 sb.id).map (fun b => b.internalBlocks))
              = some (some (some l)) ∧ tb.id ∈ l)) := by
  refine ⟨c9ClickOccupied, ?_, c9DragStartOccupied, ?_⟩
  · intro blocks conns cn blockId pt tb sb htb htty hne hsb hpt htop hmem hsbf htbf hne2
    have hcall := c9ClickFree blocks conns cn blockId pt tb sb htb htty hne hsb hpt htop
    have hfacts := connectCommitBlocks_facts blocks sb tb hmem hsbf htbf hne2
    rw [hcall]
    refine ⟨rfl, rfl, hfacts.1, ?_, hfacts.2.1, hfacts.2.2⟩
    have := le_max_left (sb.zIndex + 1) tb.zIndex
    omega
  · intro blocks conns cn id tb sb htb hne hsb hsty htop hmem hsbf htbf hne2
    have hcall := c9DragStartFree blocks conns cn id tb sb htb hne hsb hsty htop
    have hfacts := connectCommitBlocks_facts blocks sb tb hmem hsbf htbf hne2
    rw [hcall]
    refine ⟨rfl, ?_, ?_⟩
    · simp only [Option.map_some']
      rw [hfacts.1]
    · intro hcoll
      obtain ⟨l, hl, hmeml⟩ := hfacts.2.2 hcoll
      exact ⟨l, by simp only [Option.map_some']; rw [hl], hmeml⟩

theorem c9_pending_connect_guard_witness :
    handleConnectorClick c9State [] (some ⟨"CS", AnchorPoint.bottom⟩) "S2"
        AnchorPoint.bottom = (c9State, [], none)
    ∧ (handleConnectorClick c9State [] (some ⟨"CS", AnchorPoint.bottom⟩) "S3"
        AnchorPoint.bottom).2.1 =
      [⟨⟨"CS", AnchorPoint.bottom⟩, ⟨"S3", AnchorPoint.top⟩⟩]
    ∧ (∃ l, (findBlock (handleConnectorClick c9State []
          (some ⟨"CS", AnchorPoint.bottom⟩) "S3" AnchorPoint.bottom).1 "CS").map
            (fun b => b.internalBlocks) = some (some l) ∧ "S3" ∈ l)
    ∧ handleDragStartConnect c9State [] (some ⟨"CS", AnchorPoint.bottom⟩) "S2"
        = some (c9State, []) := by
  have h := c9_pending_connect_guard
  refine ⟨?_, ?_, ?_, ?_⟩
  · exact h.1 c9State [] ⟨"CS", AnchorPoint.bottom⟩ "S2" AnchorPoint.bottom
      c9Busy c9Src (by decide) (Or.inl rfl) (by decide) (by decide) rfl (by decide)
  · exact (h.2.1 c9State [] ⟨"CS", AnchorPoint.bottom⟩ "S3" AnchorPoint.bottom
      c9Free c9Src (by decide) (Or.inl rfl) (by decide) (by decide) rfl (by decide)
      (by decide) (by decide) (by decide) (by decide)).1
  · exact (h.2.1 c9State [] ⟨"CS", AnchorPoint.bottom⟩ "S3" AnchorPoint.bottom
      c9Free c9Src (by decide) (Or.inl rfl) (by decide) (by decide) rfl (by decide)
      (by decide) (by decide) (by decide) (by decide)).2.2.2.2.2 rfl
  · exact h.2.2.1 c9State [] ⟨"CS", AnchorPoint.bottom⟩ "S2" c9Busy c9Src
      (by decide) (by decide) (by decide) (by decide) (by decide)

/-- Claim C4 (amended): during a drag, the top edge of a block whose
parent is a Switch or Collection, or which forms a recognized
Switch/SwitchEnd or Collection/CollectionEnd bracket pair, is never
removed whatever the new position; for every other parented block the
edge is removed from both the block fields and the edge list exactly when
`|parentAbsoluteY + 80 − newY| > 15` or the horizontal center offset
exceeds 30 — the vertical measure always uses `parentAbsoluteY + 80`,
which coincides with the parent's bottom anchor only for height-80 parent
types (not for a CollectionEnd or Flow parent). -/
theorem c4_drag_disconnect (blocks : List Block) (conns : List Conn)
    (cur parent : Block) (pid : String)
    (htop : cur.connections.top = some pid)
    (hpar : findBlock blocks pid = some parent)
    (hcur : findBlock blocks cur.id = some cur)
    (hnecp : ¬(cur.id = pid)) :
    ((parent.type = BlockType.switchB ∨ parent.type = BlockType.collection
      ∨ (strStartsWith parent.title "Switch" = true
         ∧ strStartsWith cur.title "SwitchEnd" = true)
      ∨ (parent.type = BlockType.collection ∧ cur.type = BlockType.collectionEnd)) →
      ∀ newX newY : Int,
        dragDisconnectStep blocks conns cur newX newY = (blocks, conns))
    ∧ (¬(parent.type = BlockType.switchB) → ¬(parent.type = BlockType.collection) →
       ¬(strStartsWith parent.title "Switch" = true
         ∧ strStartsWith cur.title "SwitchEnd" = true) →
       ∀ newX newY : Int,
        ((mathAbs ((getAbsolutePosition blocks parent).y + 80 - newY) > 15
          ∨ mathAbs ((getAbsolutePosition blocks parent).x + 100 - (newX + 100)) > 30) →
          ((dragDisconnectStep blocks conns cur newX newY).2 =
              conns.filter (fun c =>
                ¬(c.fromPt.id = pid ∧ c.toPt.id = cur.id)
                ∧ ¬(c.fromPt.id = cur.id ∧ c.toPt.id = pid))
           ∧ (findBlock (dragDisconnectStep blocks conns cur newX newY).1 cur.id).map
                (fun b => b.connections.top) = some none
           ∧ (findBlock (dragDisconnectStep blocks conns cur newX newY).1 pid).map
                (fun b => b.connections.bottom)
              = some (parent.connections.bottom.filter (fun i => ¬(i = cur.id)))))
        ∧ (¬(mathAbs ((getAbsolutePosition blocks parent).y + 80 - newY) > 15
             ∨ mathAbs ((getAbsolutePosition blocks parent).x + 100 - (newX + 100)) > 30) →
            dragDisconnectStep blocks conns cur newX newY = (blocks, conns)))
    ∧ (¬(parent.type = BlockType.collection) → ¬(parent.type = BlockType.collectionEnd) →
       ¬(parent.type = BlockType.flow) →
        (getConnectorCoordinates blocks parent AnchorPoint.bottom).y =
          (getAbsolutePosition blocks parent).y + 80) := by
  have hparid : parent.id = pid := (findBlock_mem hpar).2
  refine ⟨?_, ?_, ?_⟩
  · intro hprot newX newY
    simp only [dragDisconnectStep, htop, hpar]
    split
    · next hcond =>
      exfalso
      tauto
    · rfl
  · intro hnsw hncoll hnsep newX newY
    constructor
    · intro hthr
      set g1 : Block → Block := fun b =>
        if b.id = pid then
          { b with connections :=
              { b.connections with
                bottom := b.connections.bottom.filter (fun i => ¬(i = cur.id)) } }
        else b with hg1
      set g2 : Block → Block := fun b =>
        if b.id = cur.id then
          { b with connections := { b.connections with top := none } }
        else b with hg2
      have hg1id : ∀ b, (g1 b).id = b.id := by
        intro b; simp only [hg1]; split <;> rfl
      have hg2id : ∀ b, (g2 b).id = b.id := by
        intro b; simp only [hg2]; split <;> rfl
      have hmain : dragDisconnectStep blocks conns cur newX newY =
          ((blocks.map g1).map g2,
           conns.filter (fun c =>
             ¬(c.fromPt.id = pid ∧ c.toPt.id = cur.id)
             ∧ ¬(c.fromPt.id = cur.id ∧ c.toPt.id = pid))) := by
        simp only [dragDisconnectStep, htop, hpar]
        rw [if_pos ⟨hnsep, fun h => hncoll h.1, hnsw, hncoll⟩, if_pos hthr]
      rw [hmain]
      refine ⟨rfl, ?_, ?_⟩
      · rw [findBlock_map hg2id, findBlock_map hg1id, hcur]
        simp only [Option.map_some']
        have h1 : g1 cur = cur := by
          simp only [hg1]
          exact if_neg hnecp
        rw [h1]
        have h2 : g2 cur = { cur with connections :=
            { cur.connections with top := none } } := by
          simp [hg2]
        rw [h2]
      · rw [findBlock_map hg2id, findBlock_map hg1id, hpar]
        simp only [Option.map_some']
        have h1 : g1 parent = { parent with connections :=
            { parent.connections with
              bottom := parent.connections.bottom.filter (fun i => ¬(i = cur.id)) } } := by
          simp only [hg1]
          rw [if_pos hparid]
        rw [h1]
        have h2 : g2 { parent with connections :=
            { parent.connections with
              bottom := parent.connections.bottom.filter (fun i => ¬(i = cur.id)) } }
            = { parent with connections :=
            { parent.connections with
              bottom := parent.connections.bottom.filter (fun i => ¬(i = cur.id)) } } := by

          simp only [hg2]
          refine if_neg (fun h => hnecp ?_)
          rw [← hparid]
          exact h.symm
        rw [h2]
    · intro hnthr
      simp only [dragDisconnectStep, htop, hpar]
      rw [if_pos ⟨hnsep, fun h => hncoll h.1, hnsw, hncoll⟩, if_neg hnthr]
  · intro h1 h2 h3
    unfold getConnectorCoordinates blockHeightOf
    rw [if_neg h3]
    simp only [if_neg (show ¬(AnchorPoint.bottom = AnchorPoint.top) by decide)]
    rw [if_neg (fun h => Or.elim h h1 h2)]
    rfl

/-- Claim C4 counterexample: the parent is a CollectionEnd, whose bottom
anchor per `getConnectorCoordinates` is `absoluteY + 40`; dragging the
child to `(0, 50)` keeps both anchor offsets inside the claimed
tolerances (10 ≤ 15 vertically, 0 ≤ 30 horizontally), yet the code
measures from `absoluteY + 80` and removes the edge from both the block
fields and the edge list. -/
theorem c4_counterexample :
    (getConnectorCoordinates c4State c4CE AnchorPoint.bottom).y = 40
    ∧ mathAbs ((getConnectorCoordinates c4State c4CE AnchorPoint.bottom).y - 50) ≤ 15
    ∧ mathAbs ((getConnectorCoordinates c4State c4CE AnchorPoint.bottom).x - (0 + 100)) ≤ 30
    ∧ (findBlock (dragDisconnectStep c4State c4Conns c4A 0 50).1 "A").map
        (fun b => b.connections.top) = some none
    ∧ (dragDisconnectStep c4State c4Conns c4A 0 50).2 = [] := by
  decide

theorem c4_drag_disconnect_witness :
    dragDisconnectStep c4StateSw c4ConnsSw c4SE 9999 9999 = (c4StateSw, c4ConnsSw)
    ∧ (findBlock (dragDisconnectStep c4StateP c4ConnsP c4Q 0 100).1 "Q").map
        (fun b => b.connections.top) = some none
    ∧ dragDisconnectStep c4StateP c4ConnsP c4Q 0 90 = (c4StateP, c4ConnsP) := by
  refine ⟨?_, ?_, ?_⟩
  · exact (c4_drag_disconnect c4StateSw c4ConnsSw c4SE c4Sw "SW" rfl (by decide)
      (by decide) (by decide)).1 (Or.inr (Or.inr (Or.inl (by decide)))) 9999 9999
  · exact (((c4_drag_disconnect c4StateP c4ConnsP c4Q c4P "P" rfl (by decide)
      (by decide) (by decide)).2.1 (by decide) (by decide) (by decide) 0 100).1
      (by decide)).2.1
  · exact ((c4_drag_disconnect c4StateP c4ConnsP c4Q c4P "P" rfl (by decide)
      (by decide) (by decide)).2.1 (by decide) (by decide) (by decide) 0 90).2
      (by decide)

theorem find?_of_prefix_fails {p : Block → Bool} :
    ∀ (pre : List Block) (t : Block) (post : List Block),
      (∀ u ∈ pre, p u = false) → p t = true →
      (pre ++ t :: post).find? p = some t := by
  intro pre
  induction pre with
  | nil =>
    intro t post _ hpt
    simp [List.find?_cons, hpt]
  | cons a rest ih =>
    intro t post hpre hpt
    have ha : p a = false := hpre a (List.mem_cons_self a rest)
    simp only [List.cons_append, List.find?_cons, ha]
    exact ih t post (fun u hu => hpre u (List.mem_cons_of_mem a hu)) hpt

theorem applyTopConnectBlockUpdate_id (blocks : List Block)
    (cur t : Block) (np : Pos) (nz : Int) (cb : List String) (dx dy : Int) :
    ∀ b, (applyTopConnectBlockUpdate blocks cur t np nz cb dx dy b).id = b.id := by
  intro b
  simp only [applyTopConnectBlockUpdate]
  repeat' split
  all_goals rfl

theorem applyTopConnectBlockUpdate_cur (blocks : List Block)
    (cur t : Block) (np : Pos) (nz : Int) (cb : List String) (dx dy : Int) :
    applyTopConnectBlockUpdate blocks cur t np nz cb dx dy cur =
      { cur with position := np,
                 connections := { cur.connections with top := some t.id },
                 zIndex := nz } := by
  simp [applyTopConnectBlockUpdate]

theorem applyTopConnectBlockUpdate_target (blocks : List Block)
    (cur t : Block) (np : Pos) (nz : Int) (cb : List String) (dx dy : Int)
    (hne : ¬(t.id = cur.id)) (hnc : cb.contains t.id = false) :
    applyTopConnectBlockUpdate blocks cur t np nz cb dx dy t =
      { t with connections :=
          { t.connections with bottom := t.connections.bottom ++ [cur.id] } } := by
  have hnmem : t.id ∉ cb := by
    intro h
    rw [contains_iff_mem.mpr h] at hnc
    simp at hnc
  simp only [applyTopConnectBlockUpdate]
  rw [if_neg hne, if_neg (fun h => hnmem (contains_iff_mem.mp h))]
  simp

theorem c3TopConnectPos (blocks : List Block) (conns : List Conn)
    (cur t : Block) (pre post : List Block) (nextZ : Int)
    (hblocks : blocks = pre ++ t :: post)
    (hswe : strStartsWith cur.title "SwitchEnd" = false)
    (hnotce : ¬(cur.type = BlockType.collectionEnd))
    (hnst : ¬(cur.type = BlockType.start))
    (htopnull : cur.connections.top = none)
    (hpre : ∀ u ∈ pre,
      topTargetPred blocks cur (getAbsolutePosition blocks cur).y
        ((getAbsolutePosition blocks cur).x + 100) u = false)
    (hpt : topTargetPred blocks cur (getAbsolutePosition blocks cur).y
        ((getAbsolutePosition blocks cur).x + 100) t = true)
    (hcurf : findBlock blocks cur.id = some cur)
    (htf : findBlock blocks t.id = some t)
    (htne : ¬(t.id = cur.id))
    (htnc : (getConnectedBlocksBelow blocks cur.id).contains t.id = false) :
    (dragEndAutoConnect blocks conns none cur nextZ).2 =
        conns ++ [⟨⟨t.id, AnchorPoint.bottom⟩, ⟨cur.id, AnchorPoint.top⟩⟩]
    ∧ (findBlock (dragEndAutoConnect blocks conns none cur nextZ).1 cur.id).map
        (fun b => (b.connections.top, b.zIndex, b.position))
      = some (some t.id, max (t.zIndex + 1) cur.zIndex,
          match cur.parentFlow with
          | none => (⟨(getAbsolutePosition blocks t).x,
                      (getAbsolutePosition blocks t).y + 83⟩ : Pos)
          | some pf =>
            match findBlock blocks pf with
            | some fl => (⟨FLOW_PADDING,
                max FLOW_PADDING
                  ((getAbsolutePosition blocks t).y + 83 - fl.position.y)⟩ : Pos)
            | none => (⟨(getAbsolutePosition blocks t).x,
                        (getAbsolutePosition blocks t).y + 83⟩ : Pos))
    ∧ max (t.zIndex + 1) cur.zIndex > t.zIndex
    ∧ (findBlock (dragEndAutoConnect blocks conns none cur nextZ).1 t.id).map
        (fun b => b.connections.bottom)
      = some (t.connections.bottom ++ [cur.id]) := by
  have hfind : blocks.find? (topTargetPred blocks cur (getAbsolutePosition blocks cur).y
      ((getAbsolutePosition blocks cur).x + 100)) = some t := by
    have h0 := find?_of_prefix_fails pre t post hpre hpt
    rw [← hblocks] at h0
    exact h0
  have hgate : (none : Option Connecting) = none
      ∧ ¬(strStartsWith cur.title "SwitchEnd" = true)
      ∧ ¬(cur.type = BlockType.collectionEnd) := ⟨rfl, by simp [hswe], hnotce⟩
  have hmain : dragEndAutoConnect blocks conns none cur nextZ =
      applyTopConnect blocks conns cur t := by
    simp only [dragEndAutoConnect]
    rw [if_pos (And.intro trivial hgate.2), if_pos ⟨hnst, htopnull⟩, hfind]
  set np : Pos :=
    (match cur.parentFlow with
     | some pf =>
       match findBlock blocks pf with
       | some parentFlow =>
         ⟨FLOW_PADDING,
          max FLOW_PADDING ((getAbsolutePosition blocks t).y + 83 - parentFlow.position.y)⟩
       | none => ⟨(getAbsolutePosition blocks t).x, (getAbsolutePosition blocks t).y + 83⟩
     | none => ⟨(getAbsolutePosition blocks t).x, (getAbsolutePosition blocks t).y + 83⟩)
    with hnp
  have happ : applyTopConnect blocks conns cur t =
      (blocks.map (applyTopConnectBlockUpdate blocks cur t np
        (max (t.zIndex + 1) cur.zIndex) (getConnectedBlocksBelow blocks cur.id)
        (np.x - cur.position.x) (np.y - cur.position.y)),
       conns ++ [⟨⟨t.id, AnchorPoint.bottom⟩, ⟨cur.id, AnchorPoint.top⟩⟩]) := rfl
  have hUid := applyTopConnectBlockUpdate_id blocks cur t np
    (max (t.zIndex + 1) cur.zIndex) (getConnectedBlocksBelow blocks cur.id)
    (np.x - cur.position.x) (np.y - cur.position.y)
  refine ⟨?_, ?_, ?_, ?_⟩
  · rw [hmain, happ]
  · rw [hmain, happ]
    show (findBlock (blocks.map _) cur.id).map _ = _
    rw [findBlock_map hUid, hcurf]
    simp only [Option.map_some']
    rw [applyTopConnectBlockUpdate_cur]
    have hmatch : (match cur.parentFlow with
        | none => (⟨(getAbsolutePosition blocks t).x,
                    (getAbsolutePosition blocks t).y + 83⟩ : Pos)
        | some pf =>
          match findBlock blocks pf with
          | some fl => (⟨FLOW_PADDING,
              max FLOW_PADDING
                ((getAbsolutePosition blocks t).y + 83 - fl.position.y)⟩ : Pos)
          | none => (⟨(getAbsolutePosition blocks t).x,
                      (getAbsolutePosition blocks t).y + 83⟩ : Pos)) = np := by
      rw [hnp]
      cases cur.parentFlow <;> rfl
    rw [hmatch]
  · have := le_max_left (t.zIndex + 1) cur.zIndex
    omega
  · rw [hmain, happ]
    show (findBlock (blocks.map _) t.id).map _ = _
    rw [findBlock_map hUid, htf]
    simp only [Option.map_some']
    rw [applyTopConnectBlockUpdate_target blocks cur t np
      (max (t.zIndex + 1) cur.zIndex) (getConnectedBlocksBelow blocks cur.id)
      (np.x - cur.position.x) (np.y - cur.position.y) htne htnc]

theorem c3PredChar (blocks : List Block) (cur : Block) (curY curCX : Int)
    (u : Block) :
    topTargetPred blocks cur curY curCX u = true ↔
      (¬(u.id = cur.id)
       ∧ ¬(u.type = BlockType.endB ∧ strStartsWith u.title "SwitchEnd" = false)
       ∧ (u.type = BlockType.switchB ∨ u.type = BlockType.collection
          ∨ u.connections.bottom = [])
       ∧ mathAbs (curY - ((getAbsolutePosition blocks u).y + 80)) < 30
       ∧ mathAbs (curCX - ((getAbsolutePosition blocks u).x + 100)) < 40) := by
  simp only [topTargetPred, decide_eq_true_eq, Bool.not_eq_true]
  constructor
  · rintro ⟨h1, h2, h3, h4, h5⟩
    refine ⟨h1, h2, ?_, h4, h5⟩
    rcases Decidable.em (u.type = BlockType.switchB) with h | h
    · exact Or.inl h
    · rcases Decidable.em (u.type = BlockType.collection) with h' | h'
      · exact Or.inr (Or.inl h')
      · refine Or.inr (Or.inr ?_)
        by_contra hne
        exact h3 ⟨h, h', List.length_pos.mpr hne⟩
  · rintro ⟨h1, h2, h3, h4, h5⟩
    refine ⟨h1, h2, ?_, h4, h5⟩
    rintro ⟨hsw, hcol, hlen⟩
    rcases h3 with h | h | h
    · exact hsw h
    · exact hcol h
    · rw [h] at hlen
      simp at hlen

theorem c3NoConnect (blocks : List Block) (conns : List Conn) (cur : Block)
    (nextZ : Int)
    (htopall : ∀ u ∈ blocks,
      topTargetPred blocks cur (getAbsolutePosition blocks cur).y
        ((getAbsolutePosition blocks cur).x + 100) u = false)
    (hbotall : ∀ u ∈ blocks,
      bottomTargetPred blocks cur ((getAbsolutePosition blocks cur).y + 80)
        ((getAbsolutePosition blocks cur).x + 100) u = false) :
    dragEndAutoConnect blocks conns none cur nextZ =
      (restoreDragZIndex blocks cur.id nextZ, conns) := by
  have htop : blocks.find? (topTargetPred blocks cur
      (getAbsolutePosition blocks cur).y
      ((getAbsolutePosition blocks cur).x + 100)) = none := by
    rw [List.find?_eq_none]
    intro a ha
    simp [htopall a ha]
  have hbot : blocks.find? (bottomTargetPred blocks cur
      ((getAbsolutePosition blocks cur).y + 80)
      ((getAbsolutePosition blocks cur).x + 100)) = none := by
    rw [List.find?_eq_none]
    intro a ha
    simp [hbotall a ha]
  simp only [dragEndAutoConnect, htop, hbot, ite_self]

/-- Claim C3 (amended): on release of a block with a null top (not a
Start, not an End marker, not mid-explicit-connect, no Flow hovered), the
top-anchor search accepts the first block in store order that is not a
plain End, has an empty bottom unless it is a Switch or Collection, and
has both anchor offsets strictly inside the (30, 40) tolerances; on
acceptance the edge is created on the block fields and the edge list and
the block's z-order rises strictly above the target's, and the block
snaps to `(targetX, targetY + 83)` when it is not inside a Flow, but to
`x = FLOW_PADDING`, `y = max(FLOW_PADDING, targetY + 83 − flowY)` when it
is (not to the frame-translated `targetX`); when no candidate passes
either anchor search — in particular at vertical offset 31 — no edge is
created. -/
theorem c3_auto_connect :
    (∀ (blocks : List Block) (conns : List Conn) (cur t : Block)
       (pre post : List Block) (nextZ : Int),
      blocks = pre ++ t :: post →
      strStartsWith cur.title "SwitchEnd" = false →
      ¬(cur.type = BlockType.collectionEnd) →
      ¬(cur.type = BlockType.start) →
      cur.connections.top = none →
      (∀ u ∈ pre,
        topTargetPred blocks cur (getAbsolutePosition blocks cur).y
          ((getAbsolutePosition blocks cur).x + 100) u = false) →
      topTargetPred blocks cur (getAbsolutePosition blocks cur).y
          ((getAbsolutePosition blocks cur).x + 100) t = true →
      findBlock blocks cur.id = some cur →
      findBlock blocks t.id = some t →
      ¬(t.id = cur.id) →
      (getConnectedBlocksBelow blocks cur.id).contains t.id = false →
      (dragEndAutoConnect blocks conns none cur nextZ).2 =
          conns ++ [⟨⟨t.id, AnchorPoint.bottom⟩, ⟨cur.id, AnchorPoint.top⟩⟩]
      ∧ (findBlock (dragEndAutoConnect blocks conns none cur nextZ).1 cur.id).map
          (fun b => (b.connections.top, b.zIndex, b.position))
        = some (some t.id, max (t.zIndex + 1) cur.zIndex,
            match cur.parentFlow with
            | none => (⟨(getAbsolutePosition blocks t).x,
                        (getAbsolutePosition blocks t).y + 83⟩ : Pos)
            | some pf =>
              match findBlock blocks pf with
              | some fl => (⟨FLOW_PADDING,
                  max FLOW_PADDING
                    ((getAbsolutePosition blocks t).y + 83 - fl.position.y)⟩ : Pos)
              | none => (⟨(getAbsolutePosition blocks t).x,
                          (getAbsolutePosition blocks t).y + 83⟩ : Pos))
      ∧ max (t.zIndex + 1) cur.zIndex > t.zIndex
      ∧ (findBlock (dragEndAutoConnect blocks conns none cur nextZ).1 t.id).map
          (fun b => b.connections.bottom)
        = some (t.connections.bottom ++ [cur.id]))
    ∧ (∀ (blocks : List Block) (cur : Block) (curY curCX : Int) (u : Block),
        topTargetPred blocks cur curY curCX u = true ↔
          (¬(u.id = cur.id)
           ∧ ¬(u.type = BlockType.endB ∧ strStartsWith u.title "SwitchEnd" = false)
           ∧ (u.type = BlockType.switchB ∨ u.type = BlockType.collection
              ∨ u.connections.bottom = [])
           ∧ mathAbs (curY - ((getAbsolutePosition blocks u).y + 80)) < 30
           ∧ mathAbs (curCX - ((getAbsolutePosition blocks u).x + 100)) < 40))
    ∧ (∀ (blocks : List Block) (conns : List Conn) (cur : Block) (nextZ : Int),
        (∀ u ∈ blocks,
          topTargetPred blocks cur (getAbsolutePosition blocks cur).y
            ((getAbsolutePosition blocks cur).x + 100) u = false) →
        (∀ u ∈ blocks,
          bottomTargetPred blocks cur ((getAbsolutePosition blocks cur).y + 80)
            ((getAbsolutePosition blocks cur).x + 100) u = false) →
        dragEndAutoConnect blocks conns none cur nextZ =
          (restoreDragZIndex blocks cur.id nextZ, conns)) :=
  ⟨c3TopConnectPos, c3PredChar, c3NoConnect⟩

/-- Claim C3 counterexample: the released block `"C"` lives inside Flow
`"F"` at `(600, 0)` and auto-connects to target `"T"` at absolute
`(660, -40)`.  The claim's `x = targetX` translated into the block's
frame is `660 - 600 = 60`, but the code snaps the block to
`x = FLOW_PADDING = 40` (with `y = max(40, -40 + 83 - 0) = 43`). -/
theorem c3_counterexample :
    (findBlock (dragEndAutoConnect c3State [] none c3Cur 5).1 "C").map
        (fun b => b.position) = some ⟨40, 43⟩
    ∧ (getAbsolutePosition c3State c3T).x - c3F.position.x = 60
    ∧ ¬((60 : Int) = 40) := by
  decide

theorem c3_auto_connect_witness :
    (dragEndAutoConnect c3StateW [] none c3Q 7).2 =
        [⟨⟨"P", AnchorPoint.bottom⟩, ⟨"Q", AnchorPoint.top⟩⟩]
    ∧ (findBlock (dragEndAutoConnect c3StateW [] none c3Q 7).1 "Q").map
        (fun b => (b.connections.top, b.zIndex, b.position))
      = some (some "P", (1000 : Int), (⟨0, 83⟩ : Pos)) := by
  have h := c3_auto_connect.1 c3StateW [] c3Q c3P [] [c3Q] 7 rfl (by decide)
    (by decide) (by decide) rfl (by intro u hu; cases hu) (by decide)
    (by decide) (by decide) (by decide) (by decide)
  exact ⟨h.1, h.2.1⟩

theorem dedupKeepFirst_subset :
    ∀ (l : List String) (x : String), x ∈ dedupKeepFirst l → x ∈ l := by
  have haux : ∀ (l acc : List String) (x : String),
      x ∈ l.foldl (fun acc x => if acc.contains x then acc else x :: acc) acc →
      x ∈ acc ∨ x ∈ l := by
    intro l
    induction l with
    | nil => intro acc x hx; exact Or.inl hx
    | cons a rest ih =>
      intro acc x hx
      rcases ih _ x hx with h | h
      · have h2 : x ∈ (if acc.contains a = true then acc else a :: acc) := h
        by_cases hc : acc.contains a = true
        · rw [if_pos hc] at h2
          exact Or.inl h2
        · rw [if_neg hc] at h2
          rcases List.mem_cons.mp h2 with h3 | h3
          · exact Or.inr (h3 ▸ List.mem_cons_self a rest)
          · exact Or.inl h3
      · exact Or.inr (List.mem_cons_of_mem a h)
  intro l x hx
  unfold dedupKeepFirst at hx
  rw [List.mem_reverse] at hx
  rcases haux l [] x hx with h | h
  · cases h
  · exact h

theorem reaches_rank_lt {blocks : List Block} {rank : String → Nat}
    (hrank : ∀ b ∈ blocks, ∀ s ∈ succIds b, rank s < rank b.id) :
    ∀ {a x : String}, ReachesBelow blocks a x → rank x < rank a := by
  intro a x h
  induction h with
  | step b hb hid hx => exact hid ▸ hrank b hb _ hx
  | trans h1 h2 ih1 ih2 => exact lt_trans ih2 ih1

theorem foldl_bottomStep_mem (blocks : List Block)
    (rec' : String → List String → List String × List String)
    (Q : String → Prop) :
    ∀ (ids : List String) (acc : List String × List String),
      (∀ y ∈ acc.1, Q y) →
      (∀ i ∈ ids, Q i) →
      (∀ i ∈ ids, ∀ v, ∀ y ∈ (rec' i v).1, Q y) →
      ∀ y ∈ (ids.foldl (gcbbBottomStep blocks rec') acc).1, Q y := by
  intro ids
  induction ids with
  | nil => intro acc hacc _ _ y hy; exact hacc y hy
  | cons i rest ih =>
    intro acc hacc hids hrec y hy
    refine ih (gcbbBottomStep blocks rec' acc i) ?_
      (fun j hj => hids j (List.mem_cons_of_mem _ hj))
      (fun j hj => hrec j (List.mem_cons_of_mem _ hj)) y hy
    intro z hz
    unfold gcbbBottomStep at hz
    cases hf : findBlock blocks i with
    | none =>
      rw [hf] at hz
      exact hacc z hz
    | some b =>
      rw [hf] at hz
      simp only at hz
      rcases List.mem_append.mp hz with h | h
      · exact hacc z h
      · rcases List.mem_cons.mp h with h' | h'
        · exact h' ▸ hids i (List.mem_cons_self i rest)
        · exact hrec i (List.mem_cons_self i rest) acc.2 z h'

theorem foldl_childStep_mem
    (rec' : String → List String → List String × List String)
    (Q : String → Prop) :
    ∀ (ids : List String) (acc : List String × List String),
      (∀ y ∈ acc.1, Q y) →
      (∀ i ∈ ids, Q i) →
      (∀ i ∈ ids, ∀ v, ∀ y ∈ (rec' i v).1, Q y) →
      ∀ y ∈ (ids.foldl (gcbbChildStep rec') acc).1, Q y := by
  intro ids
  induction ids with
  | nil => intro acc hacc _ _ y hy; exact hacc y hy
  | cons i rest ih =>
    intro acc hacc hids hrec y hy
    refine ih (gcbbChildStep rec' acc i) ?_
      (fun j hj => hids j (List.mem_cons_of_mem _ hj))
      (fun j hj => hrec j (List.mem_cons_of_mem _ hj)) y hy
    intro z hz
    unfold gcbbChildStep at hz
    by_cases hc : acc.2.contains i = true
    · rw [if_pos hc] at hz
      exact hacc z hz
    · rw [if_neg hc] at hz
      simp only at hz
      rcases List.mem_append.mp hz with h | h
      · exact hacc z h
      · rcases List.mem_cons.mp h with h' | h'
        · exact h' ▸ hids i (List.mem_cons_self i rest)
        · exact hrec i (List.mem_cons_self i rest) acc.2 z h'

theorem gcbb_sound (blocks : List Block) :
    ∀ (fuel : Nat) (blockId : String) (visited : List String) (x : String),
      x ∈ (gcbb blocks fuel blockId visited).1 →
      ReachesBelow blocks blockId x := by
  intro fuel
  induction fuel with
  | zero =>
    intro id v x hx
    simp [gcbb] at hx
  | succ fuel ih =>
    intro id v x hx
    by_cases hv : v.contains id = true
    · have heq : gcbb blocks (fuel + 1) id v = ([], v) := by
        simp only [gcbb]
        rw [if_pos hv]
      rw [heq] at hx
      cases hx
    · cases hfb : findBlock blocks id with
      | none =>
        have heq : gcbb blocks (fuel + 1) id v = ([], id :: v) := by
          simp only [gcbb]
          rw [if_neg hv, hfb]
        rw [heq] at hx
        cases hx
      | some block =>
        obtain ⟨hmem, hbid⟩ := findBlock_mem hfb
        set base : List String :=
          (if block.type = BlockType.collection then
             match block.pairedWithId with
             | some pid =>
               pid :: (match block.internalBlocks with
                       | some l => l
                       | none => [])
             | none => []
           else []) with hbase_def
        set r1 := block.connections.bottom.foldl
          (gcbbBottomStep blocks (gcbb blocks fuel)) (base, id :: v) with hr1_def
        set r2 := (if block.type = BlockType.flow then
            (block.children.getD []).foldl (gcbbChildStep (gcbb blocks fuel)) r1
          else r1) with hr2_def
        have heq : gcbb blocks (fuel + 1) id v = (dedupKeepFirst r2.1, r2.2) := by
          rw [hr2_def, hr1_def, hbase_def]
          simp only [gcbb]
          rw [if_neg hv, hfb]
        have hQbase : ∀ y ∈ base, ReachesBelow blocks id y := by
          rw [hbase_def]
          intro y hy
          refine ReachesBelow.step block hmem hbid ?_
          unfold succIds
          exact List.mem_append_left _ (List.mem_append_left _ hy)
        have hQbottom : ∀ i ∈ block.connections.bottom,
            ReachesBelow blocks id i := by
          intro i hi
          refine ReachesBelow.step block hmem hbid ?_
          unfold succIds
          exact List.mem_append_left _ (List.mem_append_right _ hi)
        have hQbotrec : ∀ i ∈ block.connections.bottom, ∀ v',
            ∀ y ∈ (gcbb blocks fuel i v').1, ReachesBelow blocks id y := by
          intro i hi v' y hy
          exact ReachesBelow.trans (hQbottom i hi) (ih i v' y hy)
        have hQr1 : ∀ y ∈ r1.1, ReachesBelow blocks id y := by
          rw [hr1_def]
          exact foldl_bottomStep_mem blocks (gcbb blocks fuel)
            (ReachesBelow blocks id) block.connections.bottom (base, id :: v)
            hQbase hQbottom hQbotrec
        have hQr2 : ∀ y ∈ r2.1, ReachesBelow blocks id y := by
          rw [hr2_def]
          by_cases hfl : block.type = BlockType.flow
          · rw [if_pos hfl]
            have hQchild : ∀ i ∈ block.children.getD [],
                ReachesBelow blocks id i := by
              intro i hi
              refine ReachesBelow.step block hmem hbid ?_
              unfold succIds
              refine List.mem_append_right _ ?_
              rw [if_pos hfl]
              exact hi
            have hQchildrec : ∀ i ∈ block.children.getD [], ∀ v',
                ∀ y ∈ (gcbb blocks fuel i v').1, ReachesBelow blocks id y := by
              intro i hi v' y hy
              exact ReachesBelow.trans (hQchild i hi) (ih i v' y hy)
            exact foldl_childStep_mem (gcbb blocks fuel)
              (ReachesBelow blocks id) (block.children.getD []) r1
              hQr1 hQchild hQchildrec
          · rw [if_neg hfl]
            exact hQr1
        rw [heq] at hx
        exact hQr2 x (dedupKeepFirst_subset _ x hx)

/-- Claim C7 (amended): `belowClosure(id)` excludes `id` exactly in stores
whose successor graph is acyclic — here witnessed by a rank function that
strictly decreases along every successor edge; the exposed operations can
however create a cycle (see the counterexample), and then `belowClosure`
does contain the start id, so the claimed invariant does not hold in every
reachable state. -/
theorem c7_acyclic_closure (blocks : List Block) (rank : String → Nat)
    (hrank : ∀ b ∈ blocks, ∀ s ∈ succIds b, rank s < rank b.id)
    (id : String) :
    id ∉ getConnectedBlocksBelow blocks id := by
  intro hmem
  have hr := gcbb_sound blocks (gcbbFuel blocks) id [] id hmem
  exact absurd (reaches_rank_lt hrank hr) (lt_irrefl _)

/-- Claim C7 counterexample: starting from the empty store, create two
Switch pairs and run four connector clicks — arm `"A"`, complete onto
`"B"`, arm `"B"`, complete onto `"A"`.  Every step is one of the exposed
operations, each completion passes the `top === null` guard, and in the
resulting reachable state `belowClosure("A")` contains `"A"` itself. -/
theorem c7_counterexample :
    (let s1 := addBlockSwitch [] [] "A" "AE" 1 1
     let s2 := addBlockSwitch s1.1 s1.2 "B" "BE" 2 3
     let r1 := handleConnectorClick s2.1 s2.2 none "A" AnchorPoint.bottom
     let r2 := handleConnectorClick r1.1 r1.2.1 r1.2.2 "B" AnchorPoint.bottom
     let r3 := handleConnectorClick r2.1 r2.2.1 r2.2.2 "B" AnchorPoint.bottom
     let r4 := handleConnectorClick r3.1 r3.2.1 r3.2.2 "A" AnchorPoint.bottom
     "A" ∈ getConnectedBlocksBelow r4.1 "A") := by
  decide

theorem c7_acyclic_closure_witness :
    "X" ∉ getConnectedBlocksBelow c7State "X" :=
  c7_acyclic_closure c7State (fun s => if s = "X" then 1 else 0) (by decide) "X"

/-!
## The Collection/CollectionEnd pairing invariant

`KeepsPairing` machinery: the identity, every id-preserving map that also
leaves `pairedWithId` alone, and every filter keep the pairing field of
the surviving blocks, and the property composes.
-/

theorem kp_refl (l : List Block) : KeepsPairing l l := by
  intro b hb
  exact ⟨b, hb, rfl, rfl⟩

theorem kp_map (f : Block → Block)
    (hf : ∀ b, (f b).id = b.id ∧ (f b).pairedWithId = b.pairedWithId)
    (l : List Block) : KeepsPairing l (l.map f) := by
  intro b hb
  obtain ⟨a, ha, rfl⟩ := List.mem_map.mp hb
  exact ⟨a, ha, (hf a).1, (hf a).2⟩

theorem kp_filter (p : Block → Bool) (l : List Block) :
    KeepsPairing l (l.filter p) := by
  intro b hb
  exact ⟨b, (List.mem_filter.mp hb).1, rfl, rfl⟩

theorem kp_trans {l₁ l₂ l₃ : List Block} (h₁ : KeepsPairing l₁ l₂)
    (h₂ : KeepsPairing l₂ l₃) : KeepsPairing l₁ l₃ := by
  intro b hb
  obtain ⟨a, ha, hid, hp⟩ := h₂ b hb
  obtain ⟨a₀, ha₀, hid₀, hp₀⟩ := h₁ a ha
  exact ⟨a₀, ha₀, hid.trans hid₀, hp.trans hp₀⟩

theorem updateCollectionEndPosition_keeps (blocks : List Block)
    (collectionId : String) :
    KeepsPairing blocks (updateCollectionEndPosition blocks collectionId) := by
  unfold updateCollectionEndPosition
  split
  · exact kp_refl blocks
  · split
    · exact kp_refl blocks
    · split
      · exact kp_refl blocks
      · exact kp_trans
          (kp_map _ (fun b => by split <;> exact ⟨rfl, rfl⟩) blocks)
          (kp_map _ (fun b => by split <;> exact ⟨rfl, rfl⟩) _)

theorem addBlockToCollection_keeps (snapshot current : List Block)
    (blockId collectionId : String) :
    KeepsPairing current (addBlockToCollection snapshot current blockId collectionId) := by
  unfold addBlockToCollection
  split
  · exact kp_refl current
  · exact kp_map _
      (fun b => by
        repeat' (first | split | dsimp only)
        all_goals exact ⟨rfl, rfl⟩) current

theorem connectCommitBlocks_keeps (blocks : List Block) (s t : Block) :
    KeepsPairing blocks (connectCommitBlocks blocks s t) := by
  have h1 : KeepsPairing blocks (connectUpdate blocks s t) := by
    unfold connectUpdate
    exact kp_map _
      (fun b => by
        repeat' (first | split | dsimp only)
        all_goals exact ⟨rfl, rfl⟩) blocks
  unfold connectCommitBlocks
  split
  · exact kp_trans h1 (addBlockToCollection_keeps blocks _ t.id s.id)
  · exact h1

theorem handleConnectorClick_keeps (blocks : List Block) (conns : List Conn)
    (connecting : Option Connecting) (blockId : String) (point : AnchorPoint) :
    KeepsPairing blocks (handleConnectorClick blocks conns connecting blockId point).1 := by
  unfold handleConnectorClick
  repeat' split
  all_goals first
    | exact kp_refl blocks
    | exact connectCommitBlocks_keeps blocks _ _

theorem handleDragStartConnect_keeps (blocks : List Block) (conns : List Conn)
    (connecting : Option Connecting) (id : String) :
    KeepsPairing blocks
      ((handleDragStartConnect blocks conns connecting id).getD (blocks, conns)).1 := by
  unfold handleDragStartConnect
  repeat' split
  all_goals first
    | exact kp_refl blocks
    | exact connectCommitBlocks_keeps blocks _ _

theorem handleRemoveConnection_keeps (blocks : List Block) (conns : List Conn)
    (connectionIndex : Nat) :
    KeepsPairing blocks (handleRemoveConnection blocks conns connectionIndex).1 := by
  unfold handleRemoveConnection
  repeat' split
  all_goals first
    | exact kp_refl blocks
    | exact kp_map _ (fun b => by
        repeat' (first | split | dsimp only)
        all_goals exact ⟨rfl, rfl⟩) blocks

theorem updateFlowSize_keeps (blocks : List Block) (flowId : String) :
    KeepsPairing blocks (updateFlowSize blocks flowId) := by
  unfold updateFlowSize
  exact kp_map _ (fun b => by
    repeat' (first | split | dsimp only)
    all_goals exact ⟨rfl, rfl⟩) blocks

theorem organizeBlocksInFlow_keeps (blocks : List Block) (flowId : String) :
    KeepsPairing blocks (organizeBlocksInFlow blocks flowId) := by
  unfold organizeBlocksInFlow
  repeat' split
  all_goals first
    | exact kp_refl blocks
    | exact updateFlowSize_keeps blocks flowId

theorem dragDisconnectStep_keeps (blocks : List Block) (conns : List Conn)
    (currentBlock : Block) (newX newY : Int) :
    KeepsPairing blocks (dragDisconnectStep blocks conns currentBlock newX newY).1 := by
  unfold dragDisconnectStep
  repeat' (first | split | dsimp only)
  all_goals first
    | exact kp_refl blocks
    | exact kp_trans
        (kp_map _ (fun b => by
          repeat' (first | split | dsimp only)
          all_goals exact ⟨rfl, rfl⟩) blocks)
        (kp_map _ (fun b => by
          repeat' (first | split | dsimp only)
          all_goals exact ⟨rfl, rfl⟩) _)

theorem applyTopConnect_keeps (blocks : List Block) (conns : List Conn)
    (currentBlock targetBlock : Block) :
    KeepsPairing blocks (applyTopConnect blocks conns currentBlock targetBlock).1 := by
  unfold applyTopConnect
  exact kp_map _ (fun b => by
    unfold applyTopConnectBlockUpdate
    repeat' (first | split | dsimp only)
    all_goals exact ⟨rfl, rfl⟩) blocks

theorem applyBottomConnect_keeps (blocks : List Block) (conns : List Conn)
    (currentBlock targetBlock : Block) :
    KeepsPairing blocks (applyBottomConnect blocks conns currentBlock targetBlock).1 := by
  unfold applyBottomConnect
  exact kp_map _ (fun b => by
    repeat' (first | split | dsimp only)
    all_goals exact ⟨rfl, rfl⟩) blocks

theorem restoreDragZIndex_keeps (blocks : List Block) (currentBlockId : String)
    (nextZ : Int) :
    KeepsPairing blocks (restoreDragZIndex blocks currentBlockId nextZ) := by
  unfold restoreDragZIndex
  exact kp_map _ (fun b => by split <;> exact ⟨rfl, rfl⟩) blocks

theorem dragEndAutoConnect_keeps (blocks : List Block) (conns : List Conn)
    (connecting : Option Connecting) (currentBlock : Block) (nextZ : Int) :
    KeepsPairing blocks
      (dragEndAutoConnect blocks conns connecting currentBlock nextZ).1 := by
  unfold dragEndAutoConnect
  repeat' (first | split | dsimp only)
  all_goals first
    | exact restoreDragZIndex_keeps blocks currentBlock.id nextZ
    | exact applyTopConnect_keeps blocks conns currentBlock _
    | exact applyBottomConnect_keeps blocks conns currentBlock _

theorem removeBlock_keeps (blocks : List Block) (conns : List Conn)
    (id : String) :
    KeepsPairing blocks (removeBlock blocks conns id).1 := by
  unfold removeBlock
  repeat' (first | split | dsimp only)
  all_goals first
    | exact kp_refl blocks
    | exact kp_filter _ blocks
    | exact kp_trans
        (kp_map _ (fun b => by
          unfold clearNeighborRefs
          repeat' (first | split | dsimp only)
          all_goals exact ⟨rfl, rfl⟩) blocks)
        (kp_filter _ _)

theorem findBlock_append_hit (blocks : List Block) (n e : Block) (i : String)
    (hfresh : ∀ b ∈ blocks, ¬(b.id = i)) (hn : n.id = i) :
    findBlock (blocks ++ [n, e]) i = some n := by
  unfold findBlock
  apply find?_of_prefix_fails blocks n [e]
  · intro u hu
    simp [hfresh u hu]
  · simp [hn]

theorem findBlock_append_second (blocks : List Block) (n e : Block) (i : String)
    (hfresh : ∀ b ∈ blocks, ¬(b.id = i)) (hn : ¬(n.id = i)) (he : e.id = i) :
    findBlock (blocks ++ [n, e]) i = some e := by
  unfold findBlock
  have hsplit : blocks ++ [n, e] = (blocks ++ [n]) ++ e :: [] := by simp
  rw [hsplit]
  apply find?_of_prefix_fails (blocks ++ [n]) e []
  · intro u hu
    rcases List.mem_append.mp hu with h | h
    · simp [hfresh u h]
    · have hu' : u = n := by simpa using h
      simp [hu', hn]
  · simp [he]

theorem findBlock_filter_out (blocks : List Block) (ids : List String)
    (i : String) (hi : ids.contains i = true) :
    findBlock (blocks.filter (fun b => ¬ids.contains b.id)) i = none := by
  rw [findBlock, List.find?_eq_none]
  intro x hx
  have h2 := (List.mem_filter.mp hx).2
  simp only [decide_eq_true_eq] at h2
  intro hxi
  simp only [decide_eq_true_eq] at hxi
  exact h2 (hxi ▸ hi)

theorem removeBlock_codeletes (blocks : List Block) (conns : List Conn)
    (cid eid : String) (c : Block)
    (hc : findBlock blocks cid = some c)
    (hct : c.type = BlockType.collection)
    (hcp : c.pairedWithId = some eid) :
    findBlock (removeBlock blocks conns cid).1 cid = none
    ∧ findBlock (removeBlock blocks conns cid).1 eid = none := by
  have hrb : (removeBlock blocks conns cid).1
      = blocks.filter (fun b => ¬([cid, eid].contains b.id)) := by
    simp only [removeBlock, hc, hct, hcp]
  rw [hrb]
  exact ⟨findBlock_filter_out _ _ _ (contains_iff_mem.mpr (List.mem_cons_self _ _)),
         findBlock_filter_out _ _ _ (contains_iff_mem.mpr (by simp))⟩

theorem removeBlock_codeletes_end (blocks : List Block) (conns : List Conn)
    (did pid : String) (e : Block)
    (he : findBlock blocks did = some e)
    (het : e.type = BlockType.collectionEnd)
    (hep : e.pairedWithId = some pid) :
    findBlock (removeBlock blocks conns did).1 did = none
    ∧ findBlock (removeBlock blocks conns did).1 pid = none := by
  have hrb : (removeBlock blocks conns did).1
      = blocks.filter (fun b => ¬([did, pid].contains b.id)) := by
    simp only [removeBlock, he, het, hep]
  rw [hrb]
  exact ⟨findBlock_filter_out _ _ _ (contains_iff_mem.mpr (List.mem_cons_self _ _)),
         findBlock_filter_out _ _ _ (contains_iff_mem.mpr (by simp))⟩

/-- Claim C8: for every Collection/CollectionEnd pair the pairing is
symmetric from the moment of creation (the Collection branch of `addBlock`
builds the two blocks with mutual `pairedWithId` references, and with
fresh ids each is found under its own id); no exposed operation ever
rewrites the `pairedWithId` field of a surviving block (`KeepsPairing`
holds across `updateCollectionEndPosition`, `handleConnectorClick`, the
`handleDragStart` completion branch, `handleRemoveConnection`,
`organizeBlocksInFlow`, the drag auto-disconnect, the release
auto-connect, and `removeBlock`); and deleting either member of the pair
deletes the other (after `removeBlock` on one id, neither id is found). -/
theorem c8_pairing_invariant
    (blocks : List Block) (conns : List Conn) (connecting : Option Connecting)
    (id eid : String) (k : Nat) (z : Int)
    (bid pressId collectionId flowId : String) (point : AnchorPoint)
    (index : Nat) (cur : Block) (nx ny nz : Int)
    (cid ceid did dcid : String) (c e : Block)
    (hne : ¬(id = eid))
    (hfresh : ∀ b ∈ blocks, ¬(b.id = id) ∧ ¬(b.id = eid))
    (hc : findBlock blocks cid = some c)
    (hct : c.type = BlockType.collection)
    (hcp : c.pairedWithId = some ceid)
    (he : findBlock blocks did = some e)
    (het : e.type = BlockType.collectionEnd)
    (hep : e.pairedWithId = some dcid) :
    (∃ cb ce, (addBlockCollection blocks conns id eid k z).1 = blocks ++ [cb, ce]
       ∧ cb.id = id ∧ ce.id = eid
       ∧ cb.type = BlockType.collection ∧ ce.type = BlockType.collectionEnd
       ∧ cb.pairedWithId = some eid ∧ ce.pairedWithId = some id
       ∧ findBlock (addBlockCollection blocks conns id eid k z).1 id = some cb
       ∧ findBlock (addBlockCollection blocks conns id eid k z).1 eid = some ce)
    ∧ KeepsPairing blocks (updateCollectionEndPosition blocks collectionId)
    ∧ KeepsPairing blocks (handleConnectorClick blocks conns connecting bid point).1
    ∧ KeepsPairing blocks
        ((handleDragStartConnect blocks conns connecting pressId).getD (blocks, conns)).1
    ∧ KeepsPairing blocks (handleRemoveConnection blocks conns index).1
    ∧ KeepsPairing blocks (organizeBlocksInFlow blocks flowId)
    ∧ KeepsPairing blocks (dragDisconnectStep blocks conns cur nx ny).1
    ∧ KeepsPairing blocks (dragEndAutoConnect blocks conns connecting cur nz).1
    ∧ KeepsPairing blocks (removeBlock blocks conns bid).1
    ∧ (findBlock (removeBlock blocks conns cid).1 cid = none
       ∧ findBlock (removeBlock blocks conns cid).1 ceid = none)
    ∧ (findBlock (removeBlock blocks conns did).1 did = none
       ∧ findBlock (removeBlock blocks conns did).1 dcid = none) := by
  refine ⟨?_, updateCollectionEndPosition_keeps blocks collectionId,
    handleConnectorClick_keeps blocks conns connecting bid point,
    handleDragStartConnect_keeps blocks conns connecting pressId,
    handleRemoveConnection_keeps blocks conns index,
    organizeBlocksInFlow_keeps blocks flowId,
    dragDisconnectStep_keeps blocks conns cur nx ny,
    dragEndAutoConnect_keeps blocks conns connecting cur nz,
    removeBlock_keeps blocks conns bid,
    removeBlock_codeletes blocks conns cid ceid c hc hct hcp,
    removeBlock_codeletes_end blocks conns did dcid e he het hep⟩
  refine ⟨_, _, rfl, rfl, rfl, rfl, rfl, rfl, rfl, ?_, ?_⟩
  · exact findBlock_append_hit blocks _ _ id (fun b hb => (hfresh b hb).1) rfl
  · exact findBlock_append_second blocks _ _ eid (fun b hb => (hfresh b hb).2) hne rfl

theorem c8_pairing_invariant_witness :
    (findBlock c8State "PC" = some c8Coll ∧ findBlock c8State "PE" = some c8End
     ∧ c8Coll.pairedWithId = some "PE" ∧ c8End.pairedWithId = some "PC")
    ∧ (findBlock (removeBlock c8State [] "PC").1 "PC" = none
       ∧ findBlock (removeBlock c8State [] "PC").1 "PE" = none)
    ∧ (findBlock (removeBlock c8State [] "PE").1 "PE" = none
       ∧ findBlock (removeBlock c8State [] "PE").1 "PC" = none)
    ∧ KeepsPairing c8State (removeBlock c8State [] "PC").1 := by
  have h := c8_pairing_invariant c8State [] none "NC" "NE" 1 0 "PC" "PC" "PC" "PC"
    AnchorPoint.bottom 0 c8Coll 0 0 0 "PC" "PE" "PE" "PC" c8Coll c8End
    (by decide) (by decide) (by decide) (by decide) (by decide)
    (by decide) (by decide) (by decide)
  exact ⟨⟨by decide, by decide, by decide, by decide⟩,
    h.2.2.2.2.2.2.2.2.2.1, h.2.2.2.2.2.2.2.2.2.2, h.2.2.2.2.2.2.2.2.1⟩

end FlowBuilder
